import Mathlib

/-!
Verification of the Z-stepper auto-alignment control logic (`GcodeSuite::G34`)
and its probe-position configuration command (`GcodeSuite::M422`) from
`Marlin/src/gcode/calibrate/G34_M422.cpp` (SKR Mini E3 V1.2 firmware).

The embedding follows the source control flow.  Heights and coordinates are
rationals; the external collaborators (probe driver, motion planner, tool
changer, bed-leveling subsystem, steppers) are oracles in `G34Env`, and every
externally visible action of a run is recorded in an event trace (`Ev`).
Alongside the trace, the run keeps structured per-iteration records
(`IterRec`, `ProbeRec`, `CorrRec`) of the values the source computes.
-/

namespace G34Align

attribute [local semireducible] Rat.add Rat.sub Rat.mul Rat.inv

set_option linter.unreachableTactic false
set_option linter.unusedTactic false
set_option maxRecDepth 8000

/-- External actions performed by a `G34` run, in program order.
`setLock i b` is `stepper.set_zN_lock(b)` (`b = true` means locked);
`setSep b` is `stepper.set_separate_multi_axis(b)`;
`moveZ z` is `do_blocking_move_to_z(z)`;
`probe i r` is `probe_at_point` at stepper `i`'s position (`none` = NAN fault);
`homeZ` is the final `G28 Z` subcommand. -/
inductive Ev where
  | sync
  | setLeveling (b : Bool)
  | toolChange (t : Nat)
  | homeAll
  | moveZ (z : ℚ)
  | probe (i : Nat) (res : Option ℚ)
  | setSep (b : Bool)
  | setLock (i : Nat) (b : Bool)
  | setZNotHome
  | stowProbe
  | homeZ
  deriving Repr, DecidableEq

/-- Build-time configuration (preprocessor switches and constants). -/
structure G34Config where
  /-- `Z_TRIPLE_STEPPER_DRIVERS`: three Z steppers instead of two. -/
  triple : Bool
  /-- `HOTENDS > 1`. -/
  multiTool : Bool
  /-- `HAS_LEVELING`. -/
  hasLeveling : Bool
  /-- `RESTORE_LEVELING_AFTER_G34`. -/
  restoreLeveling : Bool
  /-- `Z_BASIC_CLEARANCE` (with the BLTouch high-speed extra 7mm folded in
  when that option is configured). -/
  basicClearance : ℚ
  /-- `Z_CLEARANCE_BETWEEN_PROBES`. -/
  betweenProbes : ℚ
  /-- `G34_MAX_GRADE`. -/
  maxGrade : ℚ
  /-- the `HYPOT`/`SQRT` span over `Z_STEPPER_ALIGN_XY` appearing in the
  initial `z_probe` formula (line 133); a square root of configuration
  constants, abstracted as a parameter because it is irrational in general. -/
  geomSpan : ℚ
  deriving Repr, DecidableEq

/-- `Z_STEPPER_COUNT`: 3 with `Z_TRIPLE_STEPPER_DRIVERS`, else 2. -/
def zCount (cfg : G34Config) : Nat := if cfg.triple then 3 else 2

/-- Two's-complement narrowing to `int8_t`, as performed by the initializers
`const int8_t z_auto_align_iterations = parser.intval('I', ...)` (line 81) and
`const int8_t zstepper = parser.intval('S') - 1` (line 305): the value is
reduced modulo 256 into -128..127.  `parser.intval` returns `int16_t`, and
narrowing the `int16_t` first changes nothing modulo 256, so taking the
argument over all of `Int` is faithful. -/
def int8cast (n : Int) : Int := (n + 128) % 256 - 128

/-- The parsed parameter words of one `G34` invocation, after defaulting:
`I` (the raw `parser.intval` result, before the `int8_t` narrowing of
line 81), `T`, `A`, `E`. -/
structure G34Params where
  iterations : Int
  accuracy : ℚ
  amplification : ℚ
  stowEach : Bool
  deriving Repr, DecidableEq

/-- Behavior of the external collaborators during one run.
`probeResult k z` is the height `probe_at_point` reports at iteration `k`
for stepper `z`'s probe position (`none` = NAN);  `postProbeZ k z` is
`current_position.z` when that call returns;  `startZ` is
`current_position.z` when line 147 is reached. -/
structure G34Env where
  probeResult : Nat → Nat → Option ℚ
  postProbeZ : Nat → Nat → ℚ
  axesKnown : Bool
  levelingActive : Bool
  activeExtruder : Nat
  startZ : ℚ

/-- Final status of a run, following the spec's taxonomy: the three
validation failures, then `Converged` / `IterationsExhausted` /
`AbortedProbeFault` / `AbortedDiverging`. -/
inductive G34Status where
  | invalidIterations | invalidAccuracy | invalidAmplification
  | converged | iterationsExhausted | abortedProbeFault | abortedDiverging
  deriving Repr, DecidableEq

/-- One probe action of the probing loop (lines 166-189). -/
structure ProbeRec where
  /-- loop ordinal `izstepper` (position in this iteration's probing order). -/
  ord : Nat
  /-- `zstepper`: the stepper actually probed (line 168). -/
  stepper : Nat
  /-- whether the clearance move of line 171 was performed before this probe. -/
  clearMove : Bool
  /-- probe result (`none` = `isnan(z_probed_height)`, a probe fault). -/
  res : Option ℚ
  deriving Repr, DecidableEq, Inhabited

/-- One step of the correction loop (lines 218-253). -/
structure CorrRec where
  stepper : Nat
  /-- `z_align_move = z_measured[zstepper] - z_measured_min` (line 220). -/
  move : ℚ
  /-- `z_align_abs = ABS(z_align_move)` (line 221). -/
  mag : ℚ
  /-- `last_z_align_move[zstepper]` as read at this step. -/
  lastBefore : ℚ
  /-- value of the `amplification` variable before line 224 runs here. -/
  ampBefore : ℚ
  /-- value of the `amplification` variable after line 224 runs here;  this is
  the gain multiplied into the corrective move of line 252. -/
  ampUsed : ℚ
  /-- whether the divergence check of line 227 fired at this step. -/
  div : Bool
  deriving Repr, DecidableEq, Inhabited

/-- One iteration of the outer loop (lines 158-263). -/
structure IterRec where
  idx : Nat
  probes : List ProbeRec
  corrs : List CorrRec
  /-- a probe fault (`err_break` set at line 177) ended this iteration. -/
  fault : Bool
  /-- the divergence check (`err_break` set at line 229) ended this iteration. -/
  diverged : Bool
  /-- `success_break` at the end of the correction loop (line 261); on a fault
  the correction loop never runs and the flag keeps its initial `true`. -/
  success : Bool
  events : List Ev
  deriving Repr, DecidableEq, Inhabited

/-- `(iteration & 1) ? Z_STEPPER_COUNT - 1 - izstepper : izstepper` (line 168). -/
def orderOf (n k iz : Nat) : Nat := if k % 2 = 1 then n - 1 - iz else iz

/-- The probing loop (lines 166-189) over the remaining loop ordinals
`izstepper`.  Returns the probe records and whether a probe fault broke the
loop. -/
def probeGo (env : G34Env) (n k : Nat) : List Nat → List ProbeRec × Bool
  | [] => ([], false)
  | iz :: rest =>
    let stepper := orderOf n k iz
    let res := env.probeResult k stepper
    let pr : ProbeRec := ⟨iz, stepper, decide (k = 0) || decide (0 < iz), res⟩
    match res with
    | none => ([pr], true)
    | some _ =>
      let o := probeGo env n k rest
      (pr :: o.1, o.2)

/-- Events of the probing loop: the conditional clearance move to `z_probe`
(line 171) followed by the probe itself (line 174). -/
def probeEvs (zp : ℚ) (prs : List ProbeRec) : List Ev :=
  prs.flatMap fun pr =>
    (if pr.clearMove then [Ev.moveZ zp] else []) ++ [Ev.probe pr.stepper pr.res]

/-- `current_position.z` after the probing loop: the clearance move sets it to
`z_probe`, and each successful `probe_at_point` leaves it at an externally
determined height (`postProbeZ`). -/
def curZAfterProbes (env : G34Env) (k : Nat) (zp : ℚ) : ℚ → List ProbeRec → ℚ
  | c, [] => c
  | c, pr :: rest =>
    let c1 := if pr.clearMove then zp else c
    let c2 := match pr.res with
      | some _ => env.postProbeZ k pr.stepper
      | none => c1
    curZAfterProbes env k zp c2 rest

/-- `set_all_z_lock(b)` (lines 60-66): `set_z_lock`, `set_z2_lock`, and with
`Z_TRIPLE_STEPPER_DRIVERS` also `set_z3_lock`. -/
def lockAllEvs (cfg : G34Config) (b : Bool) : List Ev :=
  [Ev.setLock 0 b, Ev.setLock 1 b] ++ (if cfg.triple then [Ev.setLock 2 b] else [])

/-- Output of the correction loop. -/
structure CorrOut where
  recs : List CorrRec
  events : List Ev
  lastMove : List ℚ
  amp : ℚ
  curZ : ℚ
  diverged : Bool
  success : Bool
  deriving Repr

/-- The correction loop (lines 218-253) over the remaining stepper indices
(the source iterates `zstepper = 0 .. Z_STEPPER_COUNT-1` in ascending order).
Arguments after the index list: `last_z_align_move`, `amplification`,
`current_position.z`, `success_break`. -/
def corrGo (cfg : G34Config) (p : G34Params) (k : Nat) (measured : Nat → ℚ)
    (minM : ℚ) : List Nat → List ℚ → ℚ → ℚ → Bool → CorrOut
  | [], last, amp, curZ, succ => ⟨[], [], last, amp, curZ, false, succ⟩
  | z :: rest, last, amp, curZ, succ =>
    let move := measured z - minM
    let mag := |move|
    let lastZ := last.getD z 0
    -- line 224
    let amp1 := if 0 < mag then (if k = 1 then min (lastZ / mag) 2 else p.amplification) else amp
    -- line 227: divergence check, breaking out of the correction loop
    if lastZ < mag - 1 then
      ⟨[⟨z, move, mag, lastZ, amp, amp1, true⟩], [], last, amp1, curZ, true, succ⟩
    else
      let last1 := last.set z mag
      -- line 237
      let succ1 := if p.accuracy < mag then false else succ
      -- lines 242-252: lock all, unlock stepper `z`, corrective move
      let target := amp1 * move + curZ
      let o := corrGo cfg p k measured minM rest last1 amp1 target succ1
      ⟨⟨z, move, mag, lastZ, amp, amp1, false⟩ :: o.recs,
       (lockAllEvs cfg true ++ [Ev.setLock z false, Ev.moveZ target]) ++ o.events,
       o.lastMove, o.amp, o.curZ, o.diverged, o.success⟩

/-- The probing order of iteration `k` as a list of stepper indices. -/
def probeOrderList (n k : Nat) : List Nat := (List.range n).map (orderOf n k)

/-- `z_measured_min`: fold of `_MIN` over the measurements in probe order,
starting from the `100000.0f` initializer of line 164. -/
def minMeasured (n k : Nat) (measured : Nat → ℚ) : ℚ :=
  ((probeOrderList n k).map measured).foldl min 100000

/-- `z_maxdiff` (lines 196 / 199). -/
def zMaxdiffOf (cfg : G34Config) (m : Nat → ℚ) : ℚ :=
  if cfg.triple then max |m 0 - m 1| (max |m 1 - m 2| |m 2 - m 0|)
  else |m 0 - m 1|

/-- The updated `z_probe` (lines 197 / 200). -/
def zProbeNext (cfg : G34Config) (m : Nat → ℚ) : ℚ :=
  cfg.basicClearance
    + (if cfg.triple then max (m 0) (max (m 1) (m 2)) else max (m 0) (m 1))
    + zMaxdiffOf cfg m

/-- Loop-carried state of the outer iteration loop. -/
structure LoopSt where
  lastMove : List ℚ
  zProbe : ℚ
  amp : ℚ
  curZ : ℚ
  zMaxdiff : ℚ
  deriving Repr

/-- Output of one iteration of the outer loop. -/
structure IterOut where
  out : IterRec
  st : LoopSt
  deriving Repr

/-- The measured height of stepper `z` in iteration `k` (line 183): the probed
height plus `Z_CLEARANCE_BETWEEN_PROBES`. -/
def iterMeasured (cfg : G34Config) (env : G34Env) (k : Nat) : Nat → ℚ :=
  fun z => (env.probeResult k z).getD 0 + cfg.betweenProbes

/-- One iteration of the outer loop (lines 158-263).  On a probe fault the
returned state is never used again (the run aborts), so it is passed through
unchanged. -/
def iterBody (cfg : G34Config) (p : G34Params) (env : G34Env) (k : Nat)
    (st : LoopSt) : IterOut :=
  let n := zCount cfg
  let pb := probeGo env n k (List.range n)
  let pEvs := probeEvs st.zProbe pb.1
  if pb.2 then
    ⟨⟨k, pb.1, [], true, false, true, pEvs⟩, st⟩
  else
    let measured := iterMeasured cfg env k
    let minM := minMeasured n k measured
    let maxd := zMaxdiffOf cfg measured
    let zp1 := zProbeNext cfg measured
    let curZ1 := curZAfterProbes env k st.zProbe st.curZ pb.1
    let o := corrGo cfg p k measured minM (List.range n) st.lastMove st.amp curZ1 true
    -- line 214 enters separate-multi-axis mode; lines 256-257 leave it
    let evs := pEvs ++ [Ev.setSep true] ++ o.events
               ++ lockAllEvs cfg false ++ [Ev.setSep false]
    ⟨⟨k, pb.1, o.recs, false, o.diverged, o.success, evs⟩,
     ⟨o.lastMove, zp1, o.amp, o.curZ, maxd⟩⟩

/-- How the outer loop ended. -/
inductive LoopExit where
  | fault | diverged | converged | exhausted
  deriving Repr, DecidableEq

/-- The outer loop (lines 158-263): `k` is the iteration index, the second
argument the remaining iteration budget. -/
def loopGo (cfg : G34Config) (p : G34Params) (env : G34Env) :
    Nat → Nat → LoopSt → List IterRec × LoopSt × LoopExit
  | _, 0, st => ([], st, .exhausted)
  | k, fuel + 1, st =>
    let o := iterBody cfg p env k st
    if o.out.fault then ([o.out], o.st, .fault)
    else if o.out.diverged then ([o.out], o.st, .diverged)
    else if o.out.success then ([o.out], o.st, .converged)
    else
      let r := loopGo cfg p env (k + 1) fuel o.st
      (o.out :: r.1, r.2)

/-- The post-run restoration block (lines 271-294): restore the tool, restore
bed leveling, mark Z as not homed, stow the probe, home Z. -/
def postEvs (cfg : G34Config) (env : G34Env) : List Ev :=
  (if cfg.multiTool then [Ev.toolChange env.activeExtruder] else [])
  ++ (if cfg.hasLeveling && cfg.restoreLeveling then [Ev.setLeveling env.levelingActive] else [])
  ++ [Ev.setZNotHome, Ev.stowProbe, Ev.homeZ]

/-- The pre-loop sequencing (lines 99-144): barrier, disable leveling, switch
to tool 0, home if position unknown. -/
def preEvs (cfg : G34Config) (env : G34Env) : List Ev :=
  [Ev.sync]
  ++ (if cfg.hasLeveling then [Ev.setLeveling false] else [])
  ++ (if cfg.multiTool then [Ev.toolChange 0] else [])
  ++ (if env.axesKnown then [] else [Ev.homeAll])

/-- Result of a `G34` run. -/
structure G34Result where
  status : G34Status
  iters : List IterRec
  trace : List Ev
  deriving Repr, DecidableEq

/-- `WITHIN(z_auto_align_iterations, 1, 30)` (line 82), applied to the value
already narrowed to `int8_t` by line 81 — so a raw `I` word that wraps into
1..30 (such as `I286` → 30 or `I257` → 1) passes the check. -/
def validIterations (p : G34Params) : Prop :=
  1 ≤ int8cast p.iterations ∧ int8cast p.iterations ≤ 30

/-- `WITHIN(z_auto_align_accuracy, 0.01f, 1.0f)` (line 88). -/
def validAccuracy (p : G34Params) : Prop := (1 : ℚ)/100 ≤ p.accuracy ∧ p.accuracy ≤ 1

/-- `WITHIN(ABS(z_auto_align_amplification), 0.5f, 2.0f)` (line 94). -/
def validAmplification (p : G34Params) : Prop :=
  (1 : ℚ)/2 ≤ |p.amplification| ∧ |p.amplification| ≤ 2

instance (p : G34Params) : Decidable (validIterations p) := by
  unfold validIterations; infer_instance

instance (p : G34Params) : Decidable (validAccuracy p) := by
  unfold validAccuracy; infer_instance

instance (p : G34Params) : Decidable (validAmplification p) := by
  unfold validAmplification; infer_instance

/-- The initial `z_probe` (line 133). -/
def initZProbe (cfg : G34Config) : ℚ :=
  cfg.basicClearance + cfg.maxGrade * (1/100) * cfg.geomSpan

/-- The loop state on entry (lines 147-152; line 149 seeds the `10000.0`
sentinel into `last_z_align_move`). -/
def initSt (cfg : G34Config) (p : G34Params) (env : G34Env) : LoopSt :=
  ⟨List.replicate (zCount cfg) 10000, initZProbe cfg, p.amplification,
   env.startZ - initZProbe cfg * (1/2), 0⟩

/-- The whole iteration loop of a validated run. -/
def theRun (cfg : G34Config) (p : G34Params) (env : G34Env) :
    List IterRec × LoopSt × LoopExit :=
  loopGo cfg p env 0 (int8cast p.iterations).toNat (initSt cfg p env)

/-- `GcodeSuite::G34` (lines 73-299).  Parameter validation (lines 81-97)
precedes every side effect; on `err_break` (probe fault or divergence) the
source breaks out of the `do { } while(0)` at line 265, skipping the
restoration block, which is reflected here by the trace ending without
`postEvs`. -/
def g34 (cfg : G34Config) (p : G34Params) (env : G34Env) : G34Result :=
  if ¬ validIterations p then ⟨.invalidIterations, [], []⟩
  else if ¬ validAccuracy p then ⟨.invalidAccuracy, [], []⟩
  else if ¬ validAmplification p then ⟨.invalidAmplification, [], []⟩
  else
    let r := theRun cfg p env
    let iterEvs := r.1.flatMap (·.events)
    match r.2.2 with
    | .fault => ⟨.abortedProbeFault, r.1, preEvs cfg env ++ iterEvs⟩
    | .diverged => ⟨.abortedDiverging, r.1, preEvs cfg env ++ iterEvs⟩
    | .converged => ⟨.converged, r.1, preEvs cfg env ++ iterEvs ++ postEvs cfg env⟩
    | .exhausted =>
      ⟨.iterationsExhausted, r.1, preEvs cfg env ++ iterEvs ++ postEvs cfg env⟩

/-- Machine travel bounds (`X_MIN_POS` .. `Y_MAX_POS`). -/
structure MachineBounds where
  xMin : ℚ
  xMax : ℚ
  yMin : ℚ
  yMax : ℚ
  deriving Repr, DecidableEq

/-- `GcodeSuite::M422` (lines 304-327): set one stepper's probe XY position.
`store` is `z_auto_align_pos`; `sArg` is `parser.intval('S')` (default 0);
`xArg`/`yArg` are the optional `X`/`Y` words, defaulting to the stored
coordinates.  Line 305 narrows `parser.intval('S') - 1` to `int8_t`, so a
raw `S` word can wrap into range (`S257` resolves to stepper 0).  Returns
the updated store and whether the command succeeded. -/
def m422 (cfg : G34Config) (b : MachineBounds) (store : List (ℚ × ℚ))
    (sArg : Int) (xArg yArg : Option ℚ) : List (ℚ × ℚ) × Bool :=
  let z : Int := int8cast (sArg - 1)
  if ¬(0 ≤ z ∧ z ≤ (zCount cfg : Int) - 1) then (store, false)
  else
    let zi := z.toNat
    let cur := store.getD zi (0, 0)
    let x := xArg.getD cur.1
    let y := yArg.getD cur.2
    if ¬(b.xMin ≤ x ∧ x ≤ b.xMax) then (store, false)
    else if ¬(b.yMin ≤ y ∧ y ≤ b.yMax) then (store, false)
    else (store.set zi (x, y), true)

/-! ### Derived observations on traces -/

/-- The stepper lock interface state: `set_separate_multi_axis` flag and the
per-stepper `set_zN_lock` flags (`true` = locked). -/
structure LockSt where
  sep : Bool
  locks : List Bool
  deriving Repr, DecidableEq

/-- Effect of one event on the lock interface state. -/
def stepLock (s : LockSt) : Ev → LockSt
  | .setSep b => ⟨b, s.locks⟩
  | .setLock i b => ⟨s.sep, s.locks.set i b⟩
  | _ => s

/-- Number of steppers whose lock flag is clear. -/
def unlockedCount (l : List Bool) : Nat := l.count false

/-- Walks a trace from a lock state and checks the locking discipline: a
`moveZ` issued in separate-multi-axis mode must find exactly one stepper
unlocked, and probing must happen outside separate mode. -/
def lockOk : LockSt → List Ev → Bool
  | _, [] => true
  | s, e :: rest =>
    (match e with
     | Ev.moveZ _ => !s.sep || decide (unlockedCount s.locks = 1)
     | Ev.probe _ _ => !s.sep
     | _ => true)
    && lockOk (stepLock s e) rest

/-- All lock states a trace passes through (including initial and final). -/
def lockStates (s : LockSt) (evs : List Ev) : List LockSt := evs.scanl stepLock s

/-- The lock state before `G34` touches the steppers: separate-multi-axis
mode off, no lock flag set. -/
def initLock (cfg : G34Config) : LockSt := ⟨false, List.replicate (zCount cfg) false⟩

def isProbeEv : Ev → Bool
  | .probe _ _ => true
  | _ => false

/-- Number of probe actions in a trace. -/
def probeCount (evs : List Ev) : Nat := (evs.filter isProbeEv).length

/-- For each probe of a trace, whether it is immediately preceded by a `moveZ`
(the clearance move of line 171).  The accumulator records whether the
previous event was a `moveZ`. -/
def clearFlagsAux : Bool → List Ev → List Bool
  | _, [] => []
  | pending, e :: rest =>
    match e with
    | Ev.probe _ _ => pending :: clearFlagsAux false rest
    | Ev.moveZ _ => clearFlagsAux true rest
    | _ => clearFlagsAux false rest

def clearFlags (evs : List Ev) : List Bool := clearFlagsAux false evs

/-- Number of `moveZ` events issued while separate-multi-axis mode is on
(= corrective moves), starting from the given mode flag. -/
def sepMoveCount : Bool → List Ev → Nat
  | _, [] => 0
  | sep, e :: rest =>
    match e with
    | Ev.setSep b => sepMoveCount b rest
    | Ev.moveZ _ => (if sep then 1 else 0) + sepMoveCount sep rest
    | _ => sepMoveCount sep rest

/-- The separate-multi-axis flag after a list of events. -/
def sepAfter : Bool → List Ev → Bool
  | b, [] => b
  | b, e :: rest =>
    sepAfter (match e with | Ev.setSep b2 => b2 | _ => b) rest

/-- The chained `amplification` variable: each correction step reads the value
the previous step left. -/
def ampChain : ℚ → List CorrRec → Prop
  | _, [] => True
  | a, c :: rest => c.ampBefore = a ∧ ampChain c.ampUsed rest

/-- The value of the `amplification` variable after a list of correction
steps. -/
def ampAfter : ℚ → List CorrRec → ℚ
  | a, [] => a
  | _, c :: rest => ampAfter c.ampUsed rest

/-! ### Concrete runs used as evidence -/

/-- A dual-Z build with a second hotend and bed leveling configured
(`RESTORE_LEVELING_AFTER_G34` on). -/
def cfgStd : G34Config := ⟨false, true, true, true, 5, 5, 3, 100⟩

/-- Valid parameters: `I5 T0.1 A1`. -/
def pStd : G34Params := ⟨5, 1/10, 1, false⟩

/-- A probe that faults (NAN) on every reading. -/
def envFaulty : G34Env := ⟨fun _ _ => none, fun _ _ => 0, true, true, 1, 10⟩

/-- A perfectly flat bed: every probe reads height `0`. -/
def envFlat : G34Env := ⟨fun _ _ => some 0, fun _ _ => 1, true, true, 1, 10⟩

/-- A constant tilt: stepper 0 reads `0`, stepper 1 reads `1`, forever. -/
def envTilt : G34Env :=
  ⟨fun _ z => some (if z = 0 then 0 else 1), fun _ _ => 1, true, true, 1, 10⟩

/-- An absurdly steep bed: stepper 1 reads `20000` while stepper 0 reads `0`. -/
def envSteep : G34Env :=
  ⟨fun _ z => some (if z = 0 then 0 else 20000), fun _ _ => 1, true, true, 1, 10⟩

/-! ### Basic lemmas about traces and lock states -/

/-- Events that modify the lock interface state. -/
def touchesLock : Ev → Bool
  | .setSep _ => true
  | .setLock _ _ => true
  | _ => false

def isSetSepEv : Ev → Bool
  | .setSep _ => true
  | _ => false

def isMoveEv : Ev → Bool
  | .moveZ _ => true
  | _ => false

theorem stepLock_no_touch (s : LockSt) : ∀ e : Ev, touchesLock e = false → stepLock s e = s := by
  intro e h
  cases e <;> first
    | rfl
    | simp [touchesLock] at h

theorem foldl_stepLock_no_touch (evs : List Ev) :
    ∀ s : LockSt, (∀ e ∈ evs, touchesLock e = false) → evs.foldl stepLock s = s := by
  induction evs with
  | nil => intro s _; rfl
  | cons e rest ih =>
    intro s h
    have he := h e (List.mem_cons_self ..)
    rw [List.foldl_cons, stepLock_no_touch s e he]
    exact ih s fun x hx => h x (List.mem_cons_of_mem _ hx)

theorem lockOk_append (xs ys : List Ev) : ∀ s : LockSt,
    lockOk s (xs ++ ys) = (lockOk s xs && lockOk (xs.foldl stepLock s) ys) := by
  induction xs with
  | nil => intro s; simp [lockOk]
  | cons e rest ih =>
    intro s
    simp [lockOk, ih, Bool.and_assoc]

theorem lockOk_no_touch (evs : List Ev) :
    ∀ s : LockSt, s.sep = false → (∀ e ∈ evs, touchesLock e = false) → lockOk s evs = true := by
  induction evs with
  | nil => intro s _ _; rfl
  | cons e rest ih =>
    intro s hs h
    have he := h e (List.mem_cons_self ..)
    have hstep : stepLock s e = s := stepLock_no_touch s e he
    have hc : lockOk s (e :: rest) = (true && lockOk (stepLock s e) rest) := by
      cases e <;> simp [lockOk, hs]
    rw [hc, hstep, Bool.true_and]
    exact ih s hs fun x hx => h x (List.mem_cons_of_mem _ hx)

theorem probeEvs_no_touch (zp : ℚ) (prs : List ProbeRec) :
    ∀ e ∈ probeEvs zp prs, touchesLock e = false := by
  induction prs with
  | nil => intro e he; simp [probeEvs] at he
  | cons pr rest ih =>
    intro e he
    simp only [probeEvs, List.flatMap_cons, List.mem_append] at he
    rcases he with he | he
    · by_cases hcm : pr.clearMove = true
      · simp [hcm] at he
        rcases he with rfl | rfl <;> rfl
      · rw [Bool.not_eq_true] at hcm
        simp [hcm] at he
        subst he; rfl
    · exact ih e (by simpa [probeEvs] using he)

theorem preEvs_no_touch (cfg : G34Config) (env : G34Env) :
    ∀ e ∈ preEvs cfg env, touchesLock e = false := by
  intro e he
  by_cases h1 : cfg.hasLeveling <;> by_cases h2 : cfg.multiTool <;>
    by_cases h3 : env.axesKnown <;>
    simp [preEvs, h1, h2, h3] at he <;>
    first
      | (rcases he with rfl | rfl | rfl | rfl <;> rfl)
      | (rcases he with rfl | rfl | rfl <;> rfl)
      | (rcases he with rfl | rfl <;> rfl)
      | (subst he; rfl)

theorem postEvs_no_touch (cfg : G34Config) (env : G34Env) :
    ∀ e ∈ postEvs cfg env, touchesLock e = false := by
  intro e he
  by_cases h1 : cfg.multiTool <;>
    by_cases h2 : (cfg.hasLeveling && cfg.restoreLeveling) = true <;>
    simp [postEvs, h1, h2] at he <;>
    first
      | (rcases he with rfl | rfl | rfl | rfl | rfl <;> rfl)
      | (rcases he with rfl | rfl | rfl | rfl <;> rfl)
      | (rcases he with rfl | rfl | rfl <;> rfl)
      | (rcases he with rfl | rfl <;> rfl)
      | (subst he; rfl)

theorem touchesLock_setSep (e : Ev) (h : touchesLock e = false) : isSetSepEv e = false := by
  cases e <;> first
    | rfl
    | simp [touchesLock] at h

theorem preEvs_no_probe (cfg : G34Config) (env : G34Env) :
    ∀ e ∈ preEvs cfg env, isProbeEv e = false := by
  intro e he
  by_cases h1 : cfg.hasLeveling <;> by_cases h2 : cfg.multiTool <;>
    by_cases h3 : env.axesKnown <;>
    simp [preEvs, h1, h2, h3] at he <;>
    first
      | (rcases he with rfl | rfl | rfl | rfl <;> rfl)
      | (rcases he with rfl | rfl | rfl <;> rfl)
      | (rcases he with rfl | rfl <;> rfl)
      | (subst he; rfl)

theorem probeCount_append (xs ys : List Ev) :
    probeCount (xs ++ ys) = probeCount xs + probeCount ys := by
  simp [probeCount, List.filter_append]

theorem probeCount_probeEvs (zp : ℚ) (prs : List ProbeRec) :
    probeCount (probeEvs zp prs) = prs.length := by
  induction prs with
  | nil => rfl
  | cons pr rest ih =>
    by_cases hcm : pr.clearMove = true
    · simp [probeEvs, List.flatMap_cons, probeCount_append, hcm, probeCount,
        isProbeEv, List.filter] at ih ⊢
      omega
    · rw [Bool.not_eq_true] at hcm
      simp [probeEvs, List.flatMap_cons, probeCount_append, hcm, probeCount,
        isProbeEv, List.filter] at ih ⊢
      omega

theorem probeCount_eq_zero (evs : List Ev) (h : ∀ e ∈ evs, isProbeEv e = false) :
    probeCount evs = 0 := by
  have : evs.filter isProbeEv = [] := List.filter_eq_nil_iff.mpr (by
    intro a ha
    simp [h a ha])
  simp [probeCount, this]

theorem clearFlagsAux_probeEvs (zp : ℚ) (prs : List ProbeRec) (rest : List Ev) :
    clearFlagsAux false (probeEvs zp prs ++ rest)
      = prs.map (·.clearMove) ++ clearFlagsAux false rest := by
  induction prs with
  | nil => simp [probeEvs]
  | cons pr t ih =>
    by_cases hcm : pr.clearMove = true
    · simp only [probeEvs, List.flatMap_cons, hcm, if_true, List.map_cons,
        List.cons_append, List.append_assoc, List.nil_append]
      simp only [clearFlagsAux]
      rw [show probeEvs zp t = t.flatMap _ from rfl] at ih
      simp [ih, hcm]
    · rw [Bool.not_eq_true] at hcm
      simp only [probeEvs, List.flatMap_cons, hcm, if_false, List.map_cons,
        List.cons_append, List.append_assoc, List.nil_append]
      simp only [clearFlagsAux]
      rw [show probeEvs zp t = t.flatMap _ from rfl] at ih
      simp [ih, hcm]

theorem clearFlagsAux_no_probe (evs : List Ev) :
    ∀ b, (∀ e ∈ evs, isProbeEv e = false) → clearFlagsAux b evs = [] := by
  induction evs with
  | nil => intro b _; rfl
  | cons e rest ih =>
    intro b h
    have he := h e (List.mem_cons_self ..)
    have hr : ∀ x ∈ rest, isProbeEv x = false :=
      fun x hx => h x (List.mem_cons_of_mem _ hx)
    cases e <;> simp [isProbeEv] at he ⊢ <;> simp [clearFlagsAux, ih _ hr]

theorem sepMoveCount_append (xs ys : List Ev) : ∀ b,
    sepMoveCount b (xs ++ ys) = sepMoveCount b xs + sepMoveCount (sepAfter b xs) ys := by
  induction xs with
  | nil => intro b; simp [sepMoveCount, sepAfter]
  | cons e rest ih =>
    intro b
    cases e <;> simp [sepMoveCount, sepAfter, ih, Nat.add_assoc]

theorem sepAfter_no_setSep (evs : List Ev) :
    ∀ b, (∀ e ∈ evs, isSetSepEv e = false) → sepAfter b evs = b := by
  induction evs with
  | nil => intro b _; rfl
  | cons e rest ih =>
    intro b h
    have he := h e (List.mem_cons_self ..)
    have hr : ∀ x ∈ rest, isSetSepEv x = false :=
      fun x hx => h x (List.mem_cons_of_mem _ hx)
    cases e <;> simp [isSetSepEv] at he ⊢ <;> simp [sepAfter, ih _ hr]

theorem sepMoveCount_false_no_setSep (evs : List Ev) :
    (∀ e ∈ evs, isSetSepEv e = false) → sepMoveCount false evs = 0 := by
  induction evs with
  | nil => intro _; rfl
  | cons e rest ih =>
    intro h
    have he := h e (List.mem_cons_self ..)
    have hr : ∀ x ∈ rest, isSetSepEv x = false :=
      fun x hx => h x (List.mem_cons_of_mem _ hx)
    cases e <;> simp [isSetSepEv] at he ⊢ <;> simp [sepMoveCount, ih hr]

/-! ### Lock-state computations for the all-lock helper -/

theorem foldl_lockAll (cfg : G34Config) (b : Bool) (s : LockSt)
    (hlen : s.locks.length = zCount cfg) :
    (lockAllEvs cfg b).foldl stepLock s = ⟨s.sep, List.replicate (zCount cfg) b⟩ := by
  cases hc : cfg.triple
  · rw [zCount, hc, if_neg (by simp)] at hlen
    obtain ⟨x, y, hxy⟩ := List.length_eq_two.mp hlen
    obtain ⟨sep, locks⟩ := s
    simp only at hxy
    subst hxy
    simp [lockAllEvs, hc, stepLock, zCount, List.set]
  · rw [zCount, hc, if_pos rfl] at hlen
    obtain ⟨x, y, z, hxyz⟩ := List.length_eq_three.mp hlen
    obtain ⟨sep, locks⟩ := s
    simp only at hxyz
    subst hxyz
    simp [lockAllEvs, hc, stepLock, zCount, List.set]

theorem lockOk_lockAll (cfg : G34Config) (b : Bool) (s : LockSt) :
    lockOk s (lockAllEvs cfg b) = true := by
  cases hc : cfg.triple <;> simp [lockAllEvs, hc, lockOk, stepLock]

theorem lockAll_no_setSep (cfg : G34Config) (b : Bool) :
    ∀ e ∈ lockAllEvs cfg b, isSetSepEv e = false := by
  intro e he
  cases hc : cfg.triple <;> simp [lockAllEvs, hc] at he <;>
    first
      | (rcases he with rfl | rfl | rfl <;> rfl)
      | (rcases he with rfl | rfl <;> rfl)

theorem lockAll_no_probe (cfg : G34Config) (b : Bool) :
    ∀ e ∈ lockAllEvs cfg b, isProbeEv e = false := by
  intro e he
  cases hc : cfg.triple <;> simp [lockAllEvs, hc] at he <;>
    first
      | (rcases he with rfl | rfl | rfl <;> rfl)
      | (rcases he with rfl | rfl <;> rfl)

theorem sepMoveCount_lockAll (cfg : G34Config) (b : Bool) (flag : Bool) :
    sepMoveCount flag (lockAllEvs cfg b) = 0 := by
  cases hc : cfg.triple <;> simp [lockAllEvs, hc, sepMoveCount]

theorem unlocked_replicate_set (cfg : G34Config) (z : Nat) (hz : z < zCount cfg) :
    unlockedCount ((List.replicate (zCount cfg) true).set z false) = 1 := by
  cases hc : cfg.triple <;> simp only [zCount, hc, if_true, if_false] at hz ⊢ <;>
    simp at hz ⊢ <;> interval_cases z <;> rfl

/-! ### `List.getD` helpers -/

theorem getD_set_self {α : Type} (l : List α) (i : Nat) (a d : α) (h : i < l.length) :
    (l.set i a).getD i d = a := by
  simp [List.getD_eq_getElem?_getD, List.getElem?_set_self h]

theorem getD_set_ne {α : Type} (l : List α) (i j : Nat) (a d : α) (h : i ≠ j) :
    (l.set i a).getD j d = l.getD j d := by
  simp [List.getD_eq_getElem?_getD, List.getElem?_set_ne h]

theorem getD_replicate {α : Type} (n : Nat) (a d : α) (i : Nat) (h : i < n) :
    (List.replicate n a).getD i d = a := by
  simp [List.getD_eq_getElem?_getD, List.getElem?_replicate, h]

/-! ### Facts about the correction loop -/

theorem foldl_corr_block (cfg : G34Config) (z : Nat) (t : ℚ) (E : List Ev)
    (locks : List Bool) (hlen : locks.length = zCount cfg) :
    ((lockAllEvs cfg true ++ [Ev.setLock z false, Ev.moveZ t]) ++ E).foldl stepLock
        ⟨true, locks⟩
      = E.foldl stepLock ⟨true, (List.replicate (zCount cfg) true).set z false⟩ := by
  rw [List.foldl_append, List.foldl_append, foldl_lockAll cfg true ⟨true, locks⟩ hlen]
  rfl

theorem lockOk_corr_block (cfg : G34Config) (z : Nat) (hz : z < zCount cfg) (t : ℚ)
    (E : List Ev) (locks : List Bool) (hlen : locks.length = zCount cfg)
    (hE : lockOk ⟨true, (List.replicate (zCount cfg) true).set z false⟩ E = true) :
    lockOk ⟨true, locks⟩ ((lockAllEvs cfg true ++ [Ev.setLock z false, Ev.moveZ t]) ++ E)
      = true := by
  have h1 : lockOk ⟨true, List.replicate (zCount cfg) true⟩ [Ev.setLock z false, Ev.moveZ t]
      = true := by
    simp [lockOk, stepLock, unlocked_replicate_set cfg z hz]
  have h2 : ([Ev.setLock z false, Ev.moveZ t].foldl stepLock
      ⟨true, List.replicate (zCount cfg) true⟩)
      = ⟨true, (List.replicate (zCount cfg) true).set z false⟩ := rfl
  rw [lockOk_append, lockOk_append, List.foldl_append,
    foldl_lockAll cfg true ⟨true, locks⟩ hlen, lockOk_lockAll, h1, h2, hE]
  rfl

theorem corrGo_lock (cfg : G34Config) (p : G34Params) (k : Nat) (measured : Nat → ℚ)
    (minM : ℚ) : ∀ (zs : List Nat) (last : List ℚ) (amp curZ : ℚ) (succ : Bool)
    (locks : List Bool), locks.length = zCount cfg → (∀ z ∈ zs, z < zCount cfg) →
    lockOk ⟨true, locks⟩ (corrGo cfg p k measured minM zs last amp curZ succ).events = true
    ∧ ((corrGo cfg p k measured minM zs last amp curZ succ).events.foldl stepLock
         ⟨true, locks⟩).sep = true
    ∧ ((corrGo cfg p k measured minM zs last amp curZ succ).events.foldl stepLock
         ⟨true, locks⟩).locks.length = zCount cfg := by
  intro zs
  induction zs with
  | nil =>
    intro last amp curZ succ locks hlen _
    simp [corrGo, lockOk, hlen]
  | cons z rest ih =>
    intro last amp curZ succ locks hlen hz
    have hzlt : z < zCount cfg := hz z (List.mem_cons_self ..)
    have hrest : ∀ x ∈ rest, x < zCount cfg :=
      fun x hx => hz x (List.mem_cons_of_mem _ hx)
    simp only [corrGo]
    split
    · simp [lockOk, hlen]
    · have hlen2 : ((List.replicate (zCount cfg) true).set z false).length = zCount cfg := by
        simp
      obtain ⟨ihOk, ihSep, ihLen⟩ := ih _ _ _ _ ((List.replicate (zCount cfg) true).set z false)
        hlen2 hrest
      refine ⟨?_, ?_, ?_⟩
      · exact lockOk_corr_block cfg z hzlt _ _ locks hlen ihOk
      · rw [foldl_corr_block cfg z _ _ locks hlen]
        exact ihSep
      · rw [foldl_corr_block cfg z _ _ locks hlen]
        exact ihLen

theorem cons_false_pattern (m : Nat) :
    false :: (List.replicate m false ++ [true]) = List.replicate (m + 1) false ++ [true] := by
  simp [List.replicate_succ]

/-- The per-record facts established by one pass of the correction loop. -/
def CorrRecOk (p : G34Params) (k : Nat) (measured : Nat → ℚ) (minM : ℚ)
    (c : CorrRec) : Prop :=
  c.move = measured c.stepper - minM
  ∧ c.mag = |c.move|
  ∧ c.div = decide (c.lastBefore < c.mag - 1)
  ∧ c.ampUsed = (if 0 < c.mag then
      (if k = 1 then min (c.lastBefore / c.mag) 2 else p.amplification)
      else c.ampBefore)

theorem corrGo_recs (cfg : G34Config) (p : G34Params) (k : Nat) (measured : Nat → ℚ)
    (minM : ℚ) : ∀ (zs : List Nat) (last : List ℚ) (amp curZ : ℚ) (succ : Bool),
    (∀ c ∈ (corrGo cfg p k measured minM zs last amp curZ succ).recs,
        CorrRecOk p k measured minM c ∧ c.stepper ∈ zs)
    ∧ (corrGo cfg p k measured minM zs last amp curZ succ).recs.map (·.stepper)
        = zs.take (corrGo cfg p k measured minM zs last amp curZ succ).recs.length
    ∧ ampChain amp (corrGo cfg p k measured minM zs last amp curZ succ).recs
    ∧ (corrGo cfg p k measured minM zs last amp curZ succ).amp
        = ampAfter amp (corrGo cfg p k measured minM zs last amp curZ succ).recs
    ∧ ((corrGo cfg p k measured minM zs last amp curZ succ).diverged = false →
        (corrGo cfg p k measured minM zs last amp curZ succ).recs.map (·.stepper) = zs
        ∧ (corrGo cfg p k measured minM zs last amp curZ succ).recs.map (·.div)
            = List.replicate (corrGo cfg p k measured minM zs last amp curZ succ).recs.length false)
    ∧ ((corrGo cfg p k measured minM zs last amp curZ succ).diverged = true →
        (corrGo cfg p k measured minM zs last amp curZ succ).recs.map (·.div)
          = List.replicate ((corrGo cfg p k measured minM zs last amp curZ succ).recs.length - 1)
              false ++ [true])
    ∧ (corrGo cfg p k measured minM zs last amp curZ succ).success
        = (succ && (corrGo cfg p k measured minM zs last amp curZ succ).recs.all
            fun c => c.div || decide (c.mag ≤ p.accuracy))
    ∧ (zs.Nodup → ∀ c ∈ (corrGo cfg p k measured minM zs last amp curZ succ).recs,
        c.lastBefore = last.getD c.stepper 0) := by
  intro zs
  induction zs with
  | nil =>
    intro last amp curZ succ
    simp [corrGo, ampChain, ampAfter]
  | cons z rest ih =>
    intro last amp curZ succ
    simp only [corrGo]
    split
    case isTrue hdiv =>
      refine ⟨?_, by simp, ?_, ?_, ?_, ?_, ?_, ?_⟩
      · intro c hc
        simp only [List.mem_singleton] at hc
        subst hc
        refine ⟨⟨rfl, rfl, ?_, rfl⟩, List.mem_cons_self ..⟩
        exact (decide_eq_true hdiv).symm
      · exact ⟨rfl, trivial⟩
      · rfl
      · intro h
        simp at h
      · intro _
        simp
      · simp
      · intro _ c hc
        simp only [List.mem_singleton] at hc
        subst hc
        rfl
    case isFalse hdiv =>
      obtain ⟨ihRec, ihStep, ihChain, ihAmp, ihNoDiv, ihDiv, ihSucc, ihLast⟩ :=
        ih (last.set z (|measured z - minM|))
          (if 0 < |measured z - minM| then
            (if k = 1 then min (last.getD z 0 / |measured z - minM|) 2 else p.amplification)
            else amp)
          ((if 0 < |measured z - minM| then
            (if k = 1 then min (last.getD z 0 / |measured z - minM|) 2 else p.amplification)
            else amp) * (measured z - minM) + curZ)
          (if p.accuracy < |measured z - minM| then false else succ)
      refine ⟨?_, ?_, ?_, ?_, ?_, ?_, ?_, ?_⟩
      · intro c hc
        simp only [List.mem_cons] at hc
        rcases hc with rfl | hc
        · refine ⟨⟨rfl, rfl, ?_, rfl⟩, List.mem_cons_self ..⟩
          exact (decide_eq_false hdiv).symm
        · exact ⟨(ihRec c hc).1, List.mem_cons_of_mem _ (ihRec c hc).2⟩
      · simp only [List.map_cons, List.length_cons, List.take_succ_cons, ihStep]
      · exact ⟨rfl, ihChain⟩
      · simp only [ampAfter]
        exact ihAmp
      · intro h
        obtain ⟨h1, h2⟩ := ihNoDiv h
        constructor
        · simp only [List.map_cons, h1]
        · simp only [List.map_cons, List.length_cons, h2, List.replicate_succ]
      · intro h
        have hpat := ihDiv h
        have hlen1 := congrArg List.length hpat
        simp only [List.length_map, List.length_append, List.length_replicate,
          List.length_cons, List.length_nil] at hlen1
        simp only [List.map_cons, List.length_cons, hpat]
        rw [cons_false_pattern]
        congr 1
        congr 1
        omega
      · simp only [List.all_cons, ihSucc]
        by_cases hm : p.accuracy < |measured z - minM|
        · have hd : decide (|measured z - minM| ≤ p.accuracy) = false :=
            decide_eq_false (not_le.mpr hm)
          simp only [if_pos hm, hd, Bool.false_or, Bool.false_and, Bool.and_false]
        · have hd : decide (|measured z - minM| ≤ p.accuracy) = true :=
            decide_eq_true (not_lt.mp hm)
          simp only [if_neg hm, hd, Bool.false_or, Bool.true_and]
      · intro hnd c hc
        simp only [List.mem_cons] at hc
        rcases hc with rfl | hc
        · rfl
        · have hrestnd : rest.Nodup := (List.nodup_cons.mp hnd).2
          have hznotin : z ∉ rest := (List.nodup_cons.mp hnd).1
          rw [ihLast hrestnd c hc]
          exact getD_set_ne _ _ _ _ _ (fun hzc => hznotin (hzc ▸ (ihRec c hc).2))

theorem corrGo_events (cfg : G34Config) (p : G34Params) (k : Nat) (measured : Nat → ℚ)
    (minM : ℚ) : ∀ (zs : List Nat) (last : List ℚ) (amp curZ : ℚ) (succ : Bool),
    (∀ e ∈ (corrGo cfg p k measured minM zs last amp curZ succ).events,
        isProbeEv e = false ∧ isSetSepEv e = false)
    ∧ ((corrGo cfg p k measured minM zs last amp curZ succ).diverged = true →
        sepMoveCount true (corrGo cfg p k measured minM zs last amp curZ succ).events
          = (corrGo cfg p k measured minM zs last amp curZ succ).recs.length - 1)
    ∧ ((corrGo cfg p k measured minM zs last amp curZ succ).diverged = false →
        sepMoveCount true (corrGo cfg p k measured minM zs last amp curZ succ).events
          = (corrGo cfg p k measured minM zs last amp curZ succ).recs.length) := by
  intro zs
  induction zs with
  | nil =>
    intro last amp curZ succ
    refine ⟨?_, ?_, ?_⟩
    · intro e he
      simp [corrGo] at he
    · intro h
      simp [corrGo] at h
    · intro _
      simp [corrGo, sepMoveCount]
  | cons z rest ih =>
    intro last amp curZ succ
    simp only [corrGo]
    split
    case isTrue hdiv =>
      refine ⟨?_, ?_, ?_⟩
      · intro e he
        simp at he
      · intro _
        simp [sepMoveCount]
      · intro h
        simp at h
    case isFalse hdiv =>
      obtain ⟨ihMem, ihTrue, ihFalse⟩ :=
        ih (last.set z (|measured z - minM|))
          (if 0 < |measured z - minM| then
            (if k = 1 then min (last.getD z 0 / |measured z - minM|) 2 else p.amplification)
            else amp)
          ((if 0 < |measured z - minM| then
            (if k = 1 then min (last.getD z 0 / |measured z - minM|) 2 else p.amplification)
            else amp) * (measured z - minM) + curZ)
          (if p.accuracy < |measured z - minM| then false else succ)
      have hss : ∀ e ∈ lockAllEvs cfg true ++ [Ev.setLock z false,
          Ev.moveZ ((if 0 < |measured z - minM| then
            (if k = 1 then min (last.getD z 0 / |measured z - minM|) 2 else p.amplification)
            else amp) * (measured z - minM) + curZ)], isSetSepEv e = false := by
        intro e he
        simp only [List.mem_append] at he
        rcases he with he | he
        · exact lockAll_no_setSep cfg true e he
        · simp only [List.mem_cons, List.mem_singleton] at he
          rcases he with rfl | rfl | h
          · rfl
          · rfl
          · simp at h
      have hsm : sepMoveCount true [Ev.setLock z false,
          Ev.moveZ ((if 0 < |measured z - minM| then
            (if k = 1 then min (last.getD z 0 / |measured z - minM|) 2 else p.amplification)
            else amp) * (measured z - minM) + curZ)] = 1 := rfl
      refine ⟨?_, ?_, ?_⟩
      · intro e he
        simp only [List.mem_append] at he
        rcases he with he | he
        · rcases he with he | he
          · exact ⟨lockAll_no_probe cfg true e he, lockAll_no_setSep cfg true e he⟩
          · simp only [List.mem_cons, List.mem_singleton] at he
            rcases he with rfl | rfl | h
            · exact ⟨rfl, rfl⟩
            · exact ⟨rfl, rfl⟩
            · simp at h
        · exact ihMem e he
      · intro hd
        rw [sepMoveCount_append, sepAfter_no_setSep _ _ hss,
          sepMoveCount_append, sepMoveCount_lockAll,
          sepAfter_no_setSep _ _ (lockAll_no_setSep cfg true), hsm, ihTrue hd]
        have hpat := (corrGo_recs cfg p k measured minM rest
          (last.set z (|measured z - minM|))
          (if 0 < |measured z - minM| then
            (if k = 1 then min (last.getD z 0 / |measured z - minM|) 2 else p.amplification)
            else amp)
          ((if 0 < |measured z - minM| then
            (if k = 1 then min (last.getD z 0 / |measured z - minM|) 2 else p.amplification)
            else amp) * (measured z - minM) + curZ)
          (if p.accuracy < |measured z - minM| then false else succ)).2.2.2.2.2.1 hd
        have hlen1 := congrArg List.length hpat
        simp only [List.length_map, List.length_append, List.length_replicate,
          List.length_cons, List.length_nil] at hlen1
        simp only [List.length_cons]
        omega
      · intro hd
        rw [sepMoveCount_append, sepAfter_no_setSep _ _ hss,
          sepMoveCount_append, sepMoveCount_lockAll,
          sepAfter_no_setSep _ _ (lockAll_no_setSep cfg true), hsm, ihFalse hd]
        simp only [List.length_cons]
        omega

/-! ### Facts about the probing loop -/

theorem probeGo_recs (env : G34Env) (n k : Nat) : ∀ (l : List Nat),
    (∀ pr ∈ (probeGo env n k l).1,
        pr.clearMove = (decide (k = 0) || decide (0 < pr.ord))
        ∧ pr.stepper = orderOf n k pr.ord
        ∧ pr.res = env.probeResult k pr.stepper)
    ∧ (probeGo env n k l).1.map (·.ord) = l.take (probeGo env n k l).1.length
    ∧ ((probeGo env n k l).2 = false → (probeGo env n k l).1.map (·.ord) = l) := by
  intro l
  induction l with
  | nil => simp [probeGo]
  | cons iz rest ih =>
    obtain ⟨ihRec, ihOrd, ihAll⟩ := ih
    cases hres : env.probeResult k (orderOf n k iz)
    · refine ⟨?_, ?_, ?_⟩
      · intro pr hpr
        simp only [probeGo, hres, List.mem_singleton] at hpr
        subst hpr
        exact ⟨rfl, rfl, hres.symm⟩
      · simp [probeGo, hres]
      · intro hf
        simp [probeGo, hres] at hf
    · refine ⟨?_, ?_, ?_⟩
      · intro pr hpr
        simp only [probeGo, hres, List.mem_cons] at hpr
        rcases hpr with rfl | hpr
        · exact ⟨rfl, rfl, hres.symm⟩
        · exact ihRec pr hpr
      · simp only [probeGo, hres, List.map_cons, List.length_cons, List.take_succ_cons,
          ihOrd]
      · intro hf
        simp only [probeGo, hres] at hf
        simp only [probeGo, hres, List.map_cons, ihAll hf]

theorem probeEvs_no_probe_of (zp : ℚ) (prs : List ProbeRec) :
    ∀ e ∈ probeEvs zp prs, isProbeEv e = true → ∃ pr ∈ prs, e = Ev.probe pr.stepper pr.res := by
  induction prs with
  | nil => intro e he; simp [probeEvs] at he
  | cons pr rest ih =>
    intro e he hp
    simp only [probeEvs, List.flatMap_cons, List.mem_append] at he
    rcases he with he | he
    · by_cases hcm : pr.clearMove = true
      · simp [hcm] at he
        rcases he with rfl | rfl
        · simp [isProbeEv] at hp
        · exact ⟨pr, List.mem_cons_self .., rfl⟩
      · rw [Bool.not_eq_true] at hcm
        simp [hcm] at he
        subst he
        exact ⟨pr, List.mem_cons_self .., rfl⟩
    · obtain ⟨pr2, hpr2, rfl⟩ := ih e (by simpa [probeEvs] using he) hp
      exact ⟨pr2, List.mem_cons_of_mem _ hpr2, rfl⟩

theorem probeEvs_no_setSep (zp : ℚ) (prs : List ProbeRec) :
    ∀ e ∈ probeEvs zp prs, isSetSepEv e = false :=
  fun e he => touchesLock_setSep e (probeEvs_no_touch zp prs e he)

/-! ### Facts about one iteration -/

theorem initLock_locks_length (cfg : G34Config) :
    (initLock cfg).locks.length = zCount cfg := by
  simp [initLock]

theorem iterBody_lock (cfg : G34Config) (p : G34Params) (env : G34Env) (k : Nat)
    (st : LoopSt) :
    lockOk (initLock cfg) (iterBody cfg p env k st).out.events = true
    ∧ (iterBody cfg p env k st).out.events.foldl stepLock (initLock cfg)
        = initLock cfg := by
  simp only [iterBody]
  split
  case isTrue hf =>
    constructor
    · exact lockOk_no_touch _ _ rfl (probeEvs_no_touch _ _)
    · exact foldl_stepLock_no_touch _ _ (probeEvs_no_touch _ _)
  case isFalse hf =>
    have hpre1 : lockOk (initLock cfg) (probeEvs st.zProbe
        (probeGo env (zCount cfg) k (List.range (zCount cfg))).1) = true :=
      lockOk_no_touch _ _ rfl (probeEvs_no_touch _ _)
    have hpre2 : (probeEvs st.zProbe
        (probeGo env (zCount cfg) k (List.range (zCount cfg))).1).foldl stepLock
        (initLock cfg) = initLock cfg :=
      foldl_stepLock_no_touch _ _ (probeEvs_no_touch _ _)
    obtain ⟨hcOk, hcSep, hcLen⟩ := corrGo_lock cfg p k (iterMeasured cfg env k)
      (minMeasured (zCount cfg) k (iterMeasured cfg env k)) (List.range (zCount cfg))
      st.lastMove st.amp
      (curZAfterProbes env k st.zProbe st.curZ
        (probeGo env (zCount cfg) k (List.range (zCount cfg))).1) true
      (List.replicate (zCount cfg) false) (by simp)
      (fun z hz => List.mem_range.mp hz)
    constructor
    · simp only [List.append_assoc]
      rw [lockOk_append, hpre1, Bool.true_and, hpre2]
      rw [show (initLock cfg) = ⟨false, List.replicate (zCount cfg) false⟩ from rfl]
      simp only [List.singleton_append, lockOk, stepLock, Bool.true_and, List.append_eq,
        List.nil_append]
      rw [lockOk_append, hcOk, Bool.true_and]
      rw [lockOk_append, lockOk_lockAll, Bool.true_and]
      have hfin := foldl_lockAll cfg false
        ((corrGo cfg p k (iterMeasured cfg env k)
          (minMeasured (zCount cfg) k (iterMeasured cfg env k)) (List.range (zCount cfg))
          st.lastMove st.amp
          (curZAfterProbes env k st.zProbe st.curZ
            (probeGo env (zCount cfg) k (List.range (zCount cfg))).1) true).events.foldl
          stepLock ⟨true, List.replicate (zCount cfg) false⟩) hcLen
      rw [hfin]
      rfl
    · simp only [List.append_assoc]
      rw [List.foldl_append, hpre2]
      rw [show (initLock cfg) = ⟨false, List.replicate (zCount cfg) false⟩ from rfl]
      simp only [List.singleton_append, List.foldl_cons, stepLock, List.append_eq,
        List.nil_append]
      rw [List.foldl_append, List.foldl_append]
      have hfin := foldl_lockAll cfg false
        ((corrGo cfg p k (iterMeasured cfg env k)
          (minMeasured (zCount cfg) k (iterMeasured cfg env k)) (List.range (zCount cfg))
          st.lastMove st.amp
          (curZAfterProbes env k st.zProbe st.curZ
            (probeGo env (zCount cfg) k (List.range (zCount cfg))).1) true).events.foldl
          stepLock ⟨true, List.replicate (zCount cfg) false⟩) hcLen
      rw [hfin]
      rfl

theorem all_or_false {α : Type} (l : List α) (f g : α → Bool)
    (h : ∀ x ∈ l, f x = false) :
    (l.all fun x => f x || g x) = l.all g := by
  induction l with
  | nil => rfl
  | cons x t ih =>
    simp only [List.all_cons, h x (List.mem_cons_self ..), Bool.false_or]
    rw [ih fun y hy => h y (List.mem_cons_of_mem _ hy)]

/-- The facts one iteration of the outer loop guarantees about its record. -/
def IterFacts (cfg : G34Config) (p : G34Params) (env : G34Env) (it : IterRec) : Prop :=
  (∀ pr ∈ it.probes,
      pr.clearMove = (decide (it.idx = 0) || decide (0 < pr.ord))
      ∧ pr.stepper = orderOf (zCount cfg) it.idx pr.ord
      ∧ pr.res = env.probeResult it.idx pr.stepper)
  ∧ (it.fault = false → it.probes.map (·.ord) = List.range (zCount cfg))
  ∧ clearFlags it.events = it.probes.map (·.clearMove)
  ∧ probeCount it.events = it.probes.length
  ∧ (it.fault = true → it.corrs = [] ∧ it.diverged = false ∧ Ev.setSep true ∉ it.events)
  ∧ (∀ c ∈ it.corrs,
      CorrRecOk p it.idx (iterMeasured cfg env it.idx)
        (minMeasured (zCount cfg) it.idx (iterMeasured cfg env it.idx)) c
      ∧ c.stepper < zCount cfg)
  ∧ (it.diverged = false → it.fault = false →
      it.corrs.map (·.stepper) = List.range (zCount cfg)
      ∧ it.corrs.map (·.div) = List.replicate it.corrs.length false
      ∧ it.success = (it.corrs.all fun c => decide (c.mag ≤ p.accuracy))
      ∧ sepMoveCount false it.events = it.corrs.length)
  ∧ (it.diverged = true →
      it.corrs.map (·.div) = List.replicate (it.corrs.length - 1) false ++ [true]
      ∧ sepMoveCount false it.events = it.corrs.length - 1)

theorem iterBody_facts (cfg : G34Config) (p : G34Params) (env : G34Env) (k : Nat)
    (st : LoopSt) :
    IterFacts cfg p env (iterBody cfg p env k st).out
    ∧ (iterBody cfg p env k st).out.idx = k
    ∧ ampChain st.amp (iterBody cfg p env k st).out.corrs
    ∧ (iterBody cfg p env k st).st.amp = ampAfter st.amp (iterBody cfg p env k st).out.corrs
    ∧ (∀ c ∈ (iterBody cfg p env k st).out.corrs,
        c.lastBefore = st.lastMove.getD c.stepper 0) := by
  obtain ⟨pRec, pOrd, pAll⟩ := probeGo_recs env (zCount cfg) k (List.range (zCount cfg))
  simp only [iterBody]
  split
  case isTrue hfault =>
    refine ⟨⟨?_, ?_, ?_, ?_, ?_, ?_, ?_, ?_⟩, rfl, trivial, rfl, ?_⟩
    · intro pr hpr
      exact pRec pr hpr
    · intro h
      simp at h
    · show clearFlagsAux false _ = _
      rw [← List.append_nil (probeEvs st.zProbe
          (probeGo env (zCount cfg) k (List.range (zCount cfg))).1),
        clearFlagsAux_probeEvs]
      simp [clearFlagsAux]
    · exact probeCount_probeEvs _ _
    · intro _
      refine ⟨rfl, rfl, ?_⟩
      intro hmem
      have := probeEvs_no_setSep _ _ _ hmem
      simp [isSetSepEv] at this
    · intro c hc
      simp at hc
    · intro _ h
      simp at h
    · intro h
      simp at h
    · intro c hc
      simp at hc
  case isFalse hfault =>
    rw [Bool.not_eq_true] at hfault
    obtain ⟨cRec, cStep, cChain, cAmp, cNoDiv, cDiv, cSucc, cLast⟩ :=
      corrGo_recs cfg p k (iterMeasured cfg env k)
        (minMeasured (zCount cfg) k (iterMeasured cfg env k)) (List.range (zCount cfg))
        st.lastMove st.amp
        (curZAfterProbes env k st.zProbe st.curZ
          (probeGo env (zCount cfg) k (List.range (zCount cfg))).1) true
    obtain ⟨eMem, eDivCnt, eNoDivCnt⟩ :=
      corrGo_events cfg p k (iterMeasured cfg env k)
        (minMeasured (zCount cfg) k (iterMeasured cfg env k)) (List.range (zCount cfg))
        st.lastMove st.amp
        (curZAfterProbes env k st.zProbe st.curZ
          (probeGo env (zCount cfg) k (List.range (zCount cfg))).1) true
    have hRestNoProbe : ∀ e ∈ [Ev.setSep true]
        ++ ((corrGo cfg p k (iterMeasured cfg env k)
          (minMeasured (zCount cfg) k (iterMeasured cfg env k)) (List.range (zCount cfg))
          st.lastMove st.amp
          (curZAfterProbes env k st.zProbe st.curZ
            (probeGo env (zCount cfg) k (List.range (zCount cfg))).1) true).events
        ++ (lockAllEvs cfg false ++ [Ev.setSep false])), isProbeEv e = false := by
      intro e he
      simp only [List.mem_append, List.mem_singleton] at he
      rcases he with rfl | (he | (he | rfl))
      · rfl
      · exact (eMem e he).1
      · exact lockAll_no_probe cfg false e he
      · rfl
    refine ⟨⟨?_, ?_, ?_, ?_, ?_, ?_, ?_, ?_⟩, rfl, cChain, cAmp, ?_⟩
    · intro pr hpr
      exact pRec pr hpr
    · intro _
      exact pAll hfault
    · show clearFlagsAux false _ = _
      simp only [List.append_assoc]
      rw [clearFlagsAux_probeEvs, clearFlagsAux_no_probe _ false hRestNoProbe]
      simp
    · simp only [List.append_assoc, probeCount_append, probeCount_probeEvs]
      have h1 : probeCount [Ev.setSep true] = 0 := rfl
      have h2 : probeCount [Ev.setSep false] = 0 := rfl
      have h3 : probeCount (corrGo cfg p k (iterMeasured cfg env k)
          (minMeasured (zCount cfg) k (iterMeasured cfg env k)) (List.range (zCount cfg))
          st.lastMove st.amp
          (curZAfterProbes env k st.zProbe st.curZ
            (probeGo env (zCount cfg) k (List.range (zCount cfg))).1) true).events = 0 :=
        probeCount_eq_zero _ fun e he => (eMem e he).1
      have h4 : probeCount (lockAllEvs cfg false) = 0 :=
        probeCount_eq_zero _ (lockAll_no_probe cfg false)
      omega
    · intro h
      simp at h
    · intro c hc
      exact ⟨(cRec c hc).1, List.mem_range.mp (cRec c hc).2⟩
    · intro hdiv _
      obtain ⟨hs1, hs2⟩ := cNoDiv hdiv
      have hdf : ∀ c ∈ (corrGo cfg p k (iterMeasured cfg env k)
          (minMeasured (zCount cfg) k (iterMeasured cfg env k)) (List.range (zCount cfg))
          st.lastMove st.amp
          (curZAfterProbes env k st.zProbe st.curZ
            (probeGo env (zCount cfg) k (List.range (zCount cfg))).1) true).recs,
          c.div = false := by
        intro c hc
        have hmem := List.mem_map_of_mem (fun c : CorrRec => c.div) hc
        rw [hs2] at hmem
        exact List.eq_of_mem_replicate hmem
      refine ⟨hs1, hs2, ?_, ?_⟩
      · rw [cSucc, Bool.true_and]
        exact all_or_false _ _ _ hdf
      · simp only [List.append_assoc, sepMoveCount_append]
        have ha : sepMoveCount false (probeEvs st.zProbe
            (probeGo env (zCount cfg) k (List.range (zCount cfg))).1) = 0 :=
          sepMoveCount_false_no_setSep _ (probeEvs_no_setSep _ _)
        have hb : sepAfter false (probeEvs st.zProbe
            (probeGo env (zCount cfg) k (List.range (zCount cfg))).1) = false :=
          sepAfter_no_setSep _ _ (probeEvs_no_setSep _ _)
        rw [ha, hb]
        rw [show sepMoveCount false [Ev.setSep true] = 0 from rfl,
          show sepAfter false [Ev.setSep true] = true from rfl,
          eNoDivCnt hdiv,
          sepAfter_no_setSep _ true fun e he => (eMem e he).2,
          sepMoveCount_lockAll,
          sepAfter_no_setSep _ true (lockAll_no_setSep cfg false),
          show sepMoveCount true [Ev.setSep false] = 0 from rfl]
        omega
    · intro hdiv
      refine ⟨cDiv hdiv, ?_⟩
      simp only [List.append_assoc, sepMoveCount_append]
      have ha : sepMoveCount false (probeEvs st.zProbe
          (probeGo env (zCount cfg) k (List.range (zCount cfg))).1) = 0 :=
        sepMoveCount_false_no_setSep _ (probeEvs_no_setSep _ _)
      have hb : sepAfter false (probeEvs st.zProbe
          (probeGo env (zCount cfg) k (List.range (zCount cfg))).1) = false :=
        sepAfter_no_setSep _ _ (probeEvs_no_setSep _ _)
      rw [ha, hb]
      rw [show sepMoveCount false [Ev.setSep true] = 0 from rfl,
        show sepAfter false [Ev.setSep true] = true from rfl,
        eDivCnt hdiv,
        sepAfter_no_setSep _ true fun e he => (eMem e he).2,
        sepMoveCount_lockAll,
        sepAfter_no_setSep _ true (lockAll_no_setSep cfg false),
        show sepMoveCount true [Ev.setSep false] = 0 from rfl]
      omega
    · exact cLast (List.nodup_range _)

/-! ### Facts about the whole iteration loop -/

theorem ampChain_append (xs ys : List CorrRec) : ∀ a : ℚ,
    ampChain a (xs ++ ys) ↔ (ampChain a xs ∧ ampChain (ampAfter a xs) ys) := by
  induction xs with
  | nil => intro a; simp [ampChain, ampAfter]
  | cons c t ih =>
    intro a
    simp only [List.cons_append, ampChain, ampAfter]
    rw [and_assoc]
    exact and_congr_right fun _ => ih c.ampUsed

theorem loopGo_lock (cfg : G34Config) (p : G34Params) (env : G34Env) :
    ∀ (fuel k : Nat) (st : LoopSt),
    lockOk (initLock cfg) ((loopGo cfg p env k fuel st).1.flatMap (·.events)) = true
    ∧ ((loopGo cfg p env k fuel st).1.flatMap (·.events)).foldl stepLock (initLock cfg)
        = initLock cfg := by
  intro fuel
  induction fuel with
  | zero =>
    intro k st
    simp [loopGo, lockOk]
  | succ fuel ih =>
    intro k st
    obtain ⟨hOk, hFold⟩ := iterBody_lock cfg p env k st
    simp only [loopGo]
    split
    case isTrue hf =>
      simpa [List.flatMap_cons] using ⟨hOk, hFold⟩
    case isFalse hf =>
      split
      case isTrue hd =>
        simpa [List.flatMap_cons] using ⟨hOk, hFold⟩
      case isFalse hd =>
        split
        case isTrue hs =>
          simpa [List.flatMap_cons] using ⟨hOk, hFold⟩
        case isFalse hs =>
          obtain ⟨ihOk, ihFold⟩ := ih (k + 1) (iterBody cfg p env k st).st
          constructor
          · simp only [List.flatMap_cons]
            rw [lockOk_append, hOk, Bool.true_and, hFold]
            exact ihOk
          · simp only [List.flatMap_cons]
            rw [List.foldl_append, hFold]
            exact ihFold

theorem loopGo_facts (cfg : G34Config) (p : G34Params) (env : G34Env) :
    ∀ (fuel k : Nat) (st : LoopSt),
    (∀ it ∈ (loopGo cfg p env k fuel st).1, IterFacts cfg p env it)
    ∧ (loopGo cfg p env k fuel st).1.map (·.idx)
        = List.range' k (loopGo cfg p env k fuel st).1.length
    ∧ (loopGo cfg p env k fuel st).1.length ≤ fuel
    ∧ ampChain st.amp ((loopGo cfg p env k fuel st).1.flatMap (·.corrs))
    ∧ (∀ it ∈ (loopGo cfg p env k fuel st).1, it.idx = k →
        ∀ c ∈ it.corrs, c.lastBefore = st.lastMove.getD c.stepper 0)
    ∧ ((loopGo cfg p env k fuel st).2.2 = .fault →
        (loopGo cfg p env k fuel st).1.map (·.fault)
          = List.replicate ((loopGo cfg p env k fuel st).1.length - 1) false ++ [true]
        ∧ (loopGo cfg p env k fuel st).1.map (·.diverged)
          = List.replicate (loopGo cfg p env k fuel st).1.length false)
    ∧ ((loopGo cfg p env k fuel st).2.2 = .diverged →
        (loopGo cfg p env k fuel st).1.map (·.fault)
          = List.replicate (loopGo cfg p env k fuel st).1.length false
        ∧ (loopGo cfg p env k fuel st).1.map (·.diverged)
          = List.replicate ((loopGo cfg p env k fuel st).1.length - 1) false ++ [true])
    ∧ ((loopGo cfg p env k fuel st).2.2 = .converged →
        (loopGo cfg p env k fuel st).1.map (·.fault)
          = List.replicate (loopGo cfg p env k fuel st).1.length false
        ∧ (loopGo cfg p env k fuel st).1.map (·.diverged)
          = List.replicate (loopGo cfg p env k fuel st).1.length false
        ∧ (loopGo cfg p env k fuel st).1.map (·.success)
          = List.replicate ((loopGo cfg p env k fuel st).1.length - 1) false ++ [true])
    ∧ ((loopGo cfg p env k fuel st).2.2 = .exhausted →
        (loopGo cfg p env k fuel st).1.length = fuel
        ∧ (loopGo cfg p env k fuel st).1.map (·.fault)
          = List.replicate (loopGo cfg p env k fuel st).1.length false
        ∧ (loopGo cfg p env k fuel st).1.map (·.diverged)
          = List.replicate (loopGo cfg p env k fuel st).1.length false
        ∧ (loopGo cfg p env k fuel st).1.map (·.success)
          = List.replicate (loopGo cfg p env k fuel st).1.length false) := by
  intro fuel
  induction fuel with
  | zero =>
    intro k st
    refine ⟨?_, rfl, Nat.le_refl 0, trivial, ?_, ?_, ?_, ?_, ?_⟩
    · intro it hit; simp [loopGo] at hit
    · intro it hit; simp [loopGo] at hit
    · intro h; simp [loopGo] at h
    · intro h; simp [loopGo] at h
    · intro h; simp [loopGo] at h
    · intro _; exact ⟨rfl, rfl, rfl, rfl⟩
  | succ fuel ih =>
    intro k st
    obtain ⟨ibFacts, ibIdx, ibChain, ibAmp, ibLast⟩ := iterBody_facts cfg p env k st
    simp only [loopGo]
    split
    case isTrue hf =>
      have hdivf : (iterBody cfg p env k st).out.diverged = false :=
        (ibFacts.2.2.2.2.1 hf).2.1
      refine ⟨?_, ?_, ?_, ?_, ?_, ?_, ?_, ?_, ?_⟩
      · intro it hit
        simp only [List.mem_singleton] at hit
        subst hit
        exact ibFacts
      · simp [ibIdx, List.range'_one]
      · simp
      · simpa using ibChain
      · intro it hit _ c hc
        simp only [List.mem_singleton] at hit
        subst hit
        exact ibLast c hc
      · intro _
        simp [hf, hdivf]
      · intro h; simp at h
      · intro h; simp at h
      · intro h; simp at h
    case isFalse hf =>
      rw [Bool.not_eq_true] at hf
      split
      case isTrue hd =>
        refine ⟨?_, ?_, ?_, ?_, ?_, ?_, ?_, ?_, ?_⟩
        · intro it hit
          simp only [List.mem_singleton] at hit
          subst hit
          exact ibFacts
        · simp [ibIdx, List.range'_one]
        · simp
        · simpa using ibChain
        · intro it hit _ c hc
          simp only [List.mem_singleton] at hit
          subst hit
          exact ibLast c hc
        · intro h; simp at h
        · intro _
          simp [hf, hd]
        · intro h; simp at h
        · intro h; simp at h
      case isFalse hd =>
        rw [Bool.not_eq_true] at hd
        split
        case isTrue hs =>
          refine ⟨?_, ?_, ?_, ?_, ?_, ?_, ?_, ?_, ?_⟩
          · intro it hit
            simp only [List.mem_singleton] at hit
            subst hit
            exact ibFacts
          · simp [ibIdx, List.range'_one]
          · simp
          · simpa using ibChain
          · intro it hit _ c hc
            simp only [List.mem_singleton] at hit
            subst hit
            exact ibLast c hc
          · intro h; simp at h
          · intro h; simp at h
          · intro _
            simp [hf, hd, hs]
          · intro h; simp at h
        case isFalse hs =>
          rw [Bool.not_eq_true] at hs
          obtain ⟨ihFacts, ihIdx, ihLen, ihChain, ihLast, ihFault, ihDiv, ihConv, ihExh⟩ :=
            ih (k + 1) (iterBody cfg p env k st).st
          refine ⟨?_, ?_, ?_, ?_, ?_, ?_, ?_, ?_, ?_⟩
          · intro it hit
            simp only [List.mem_cons] at hit
            rcases hit with rfl | hit
            · exact ibFacts
            · exact ihFacts it hit
          · simp only [List.map_cons, List.length_cons, ibIdx, ihIdx, List.range'_succ]
          · simp only [List.length_cons]
            omega
          · simp only [List.flatMap_cons]
            rw [ampChain_append]
            refine ⟨ibChain, ?_⟩
            rw [← ibAmp]
            exact ihChain
          · intro it hit hidx c hc
            simp only [List.mem_cons] at hit
            rcases hit with rfl | hit
            · exact ibLast c hc
            · exfalso
              have hmem := List.mem_map_of_mem (fun x : IterRec => x.idx) hit
              rw [ihIdx] at hmem
              simp only at hmem
              rw [List.mem_range'_1] at hmem
              omega
          · intro hex
            obtain ⟨h1, h2⟩ := ihFault hex
            have hlen1 := congrArg List.length h1
            simp only [List.length_map, List.length_append, List.length_replicate,
              List.length_cons, List.length_nil] at hlen1
            constructor
            · simp only [List.map_cons, List.length_cons, hf, h1]
              rw [cons_false_pattern]
              congr 2
              omega
            · simp only [List.map_cons, List.length_cons, hd, h2, List.replicate_succ]
          · intro hex
            obtain ⟨h1, h2⟩ := ihDiv hex
            have hlen1 := congrArg List.length h2
            simp only [List.length_map, List.length_append, List.length_replicate,
              List.length_cons, List.length_nil] at hlen1
            constructor
            · simp only [List.map_cons, List.length_cons, hf, h1, List.replicate_succ]
            · simp only [List.map_cons, List.length_cons, hd, h2]
              rw [cons_false_pattern]
              congr 2
              omega
          · intro hex
            obtain ⟨h1, h2, h3⟩ := ihConv hex
            have hlen1 := congrArg List.length h3
            simp only [List.length_map, List.length_append, List.length_replicate,
              List.length_cons, List.length_nil] at hlen1
            refine ⟨?_, ?_, ?_⟩
            · simp only [List.map_cons, List.length_cons, hf, h1, List.replicate_succ]
            · simp only [List.map_cons, List.length_cons, hd, h2, List.replicate_succ]
            · simp only [List.map_cons, List.length_cons, hs, h3]
              rw [cons_false_pattern]
              congr 2
              omega
          · intro hex
            obtain ⟨h0, h1, h2, h3⟩ := ihExh hex
            refine ⟨?_, ?_, ?_, ?_⟩
            · simp only [List.length_cons]
              omega
            · simp only [List.map_cons, List.length_cons, hf, h1, List.replicate_succ]
            · simp only [List.map_cons, List.length_cons, hd, h2, List.replicate_succ]
            · simp only [List.map_cons, List.length_cons, hs, h3, List.replicate_succ]

/-! ### Unfolding `g34` for validated runs -/

theorem g34_invalid_iterations (cfg : G34Config) (p : G34Params) (env : G34Env)
    (h : ¬ validIterations p) : g34 cfg p env = ⟨.invalidIterations, [], []⟩ := by
  simp [g34, h]

theorem g34_invalid_accuracy (cfg : G34Config) (p : G34Params) (env : G34Env)
    (h1 : validIterations p) (h : ¬ validAccuracy p) :
    g34 cfg p env = ⟨.invalidAccuracy, [], []⟩ := by
  simp [g34, h1, h]

theorem g34_invalid_amplification (cfg : G34Config) (p : G34Params) (env : G34Env)
    (h1 : validIterations p) (h2 : validAccuracy p) (h : ¬ validAmplification p) :
    g34 cfg p env = ⟨.invalidAmplification, [], []⟩ := by
  simp [g34, h1, h2, h]

theorem g34_run (cfg : G34Config) (p : G34Params) (env : G34Env)
    (h1 : validIterations p) (h2 : validAccuracy p) (h3 : validAmplification p) :
    (g34 cfg p env).iters = (theRun cfg p env).1
    ∧ (g34 cfg p env).status = (match (theRun cfg p env).2.2 with
        | .fault => G34Status.abortedProbeFault
        | .diverged => G34Status.abortedDiverging
        | .converged => G34Status.converged
        | .exhausted => G34Status.iterationsExhausted)
    ∧ (g34 cfg p env).trace = preEvs cfg env ++ (theRun cfg p env).1.flatMap (·.events)
        ++ (match (theRun cfg p env).2.2 with
            | .fault => []
            | .diverged => []
            | .converged => postEvs cfg env
            | .exhausted => postEvs cfg env) := by
  rcases hex : (theRun cfg p env).2.2 <;>
    simp [g34, h1, h2, h3, theRun, List.append_assoc] at hex ⊢ <;> simp [hex]

/-! ### Claim C2 (amended): the locking discipline -/

/-- Claim C2 (amended): at the instant of every corrective move (a `moveZ`
issued while separate-multi-axis mode is on) exactly one stepper is unlocked,
probing happens only outside separate mode, and on every exit path —
validation failure, probe-fault abort, divergence abort, convergence,
exhaustion — the run hands the steppers back with all lock flags clear and
separate mode off.  (The unamended count claim is refuted by
`c2_counterexample`: right after `set_separate_multi_axis(true)` and right
after the final `set_all_z_lock(false)`, all steppers are simultaneously
unlocked.) -/
theorem c2_lock_discipline_amended (cfg : G34Config) (p : G34Params) (env : G34Env) :
    lockOk (initLock cfg) (g34 cfg p env).trace = true
    ∧ (g34 cfg p env).trace.foldl stepLock (initLock cfg) = initLock cfg := by
  by_cases h1 : validIterations p
  · by_cases h2 : validAccuracy p
    · by_cases h3 : validAmplification p
      · obtain ⟨lok, lfold⟩ :=
          loopGo_lock cfg p env (int8cast p.iterations).toNat 0 (initSt cfg p env)
        have htr := (g34_run cfg p env h1 h2 h3).2.2
        rw [htr]
        simp only [theRun] at *
        constructor
        · rw [List.append_assoc, lockOk_append,
            lockOk_no_touch _ _ rfl (preEvs_no_touch cfg env), Bool.true_and,
            foldl_stepLock_no_touch _ _ (preEvs_no_touch cfg env),
            lockOk_append, lok, Bool.true_and, lfold]
          rcases hex : (loopGo cfg p env 0 (int8cast p.iterations).toNat (initSt cfg p env)).2.2 <;>
            simp [hex] <;>
            first
              | rfl
              | exact lockOk_no_touch _ _ rfl (postEvs_no_touch cfg env)
        · rw [List.append_assoc, List.foldl_append,
            foldl_stepLock_no_touch _ _ (preEvs_no_touch cfg env),
            List.foldl_append, lfold]
          rcases hex : (loopGo cfg p env 0 (int8cast p.iterations).toNat (initSt cfg p env)).2.2 <;>
            simp [hex] <;>
            first
              | rfl
              | exact foldl_stepLock_no_touch _ _ (postEvs_no_touch cfg env)
      · rw [g34_invalid_amplification cfg p env h1 h2 h3]
        exact ⟨rfl, rfl⟩
    · rw [g34_invalid_accuracy cfg p env h1 h2]
      exact ⟨rfl, rfl⟩
  · rw [g34_invalid_iterations cfg p env h1]
    exact ⟨rfl, rfl⟩

/-! ### Claim C6: parameter validation -/

/-- Counterexample to claim C6 as stated: the raw iteration word `I286` is
outside 1..30, yet the invocation is not rejected — line 81 narrows 286 to
the `int8_t` value 30 before the range check of line 82 — and the run
proceeds to convergence, issuing probe commands and motion commands.
(`I257` wraps to 1 the same way.) -/
theorem c6_counterexample :
    ¬ (1 ≤ (286 : Int) ∧ (286 : Int) ≤ 30)
    ∧ (g34 cfgStd ⟨286, 1/10, 1, false⟩ envFlat).status = .converged
    ∧ 0 < probeCount (g34 cfgStd ⟨286, 1/10, 1, false⟩ envFlat).trace
    ∧ (g34 cfgStd ⟨286, 1/10, 1, false⟩ envFlat).trace.any
        (fun e => match e with | Ev.moveZ _ => true | _ => false) = true :=
  ⟨by decide, by decide, by decide, by decide⟩

/-- Claim C6 (amended): validation applies to the parameter values as the
code reads them — the iteration count only after the `int8_t` narrowing of
line 81.  A narrowed iteration count outside 1..30, an accuracy target
outside 0.01..1.0, or a gain magnitude outside 0.5..2.0 makes the run fail
with the status identifying that parameter and an empty event trace (no
probe, no motion, no state change); when all three checks pass the run
proceeds and none of the invalid statuses result.  (The unamended claim,
ranging over raw iteration words, is refuted by `c6_counterexample`:
`I286` wraps into range and runs.) -/
theorem c6_param_validation_amended (cfg : G34Config) (p : G34Params) (env : G34Env) :
    (¬ (1 ≤ int8cast p.iterations ∧ int8cast p.iterations ≤ 30) →
        g34 cfg p env = ⟨.invalidIterations, [], []⟩)
    ∧ (validIterations p → ¬ validAccuracy p →
        g34 cfg p env = ⟨.invalidAccuracy, [], []⟩)
    ∧ (validIterations p → validAccuracy p → ¬ validAmplification p →
        g34 cfg p env = ⟨.invalidAmplification, [], []⟩)
    ∧ (validIterations p → validAccuracy p → validAmplification p →
        (g34 cfg p env).status ≠ .invalidIterations
        ∧ (g34 cfg p env).status ≠ .invalidAccuracy
        ∧ (g34 cfg p env).status ≠ .invalidAmplification) := by
  refine ⟨fun h => g34_invalid_iterations cfg p env h,
    g34_invalid_accuracy cfg p env, g34_invalid_amplification cfg p env, ?_⟩
  intro h1 h2 h3
  have hst := (g34_run cfg p env h1 h2 h3).2.1
  rcases hex : (theRun cfg p env).2.2 <;> rw [hex] at hst <;> simp only at hst <;>
    rw [hst] <;> exact ⟨by simp, by simp, by simp⟩

/-- Witness for C6 (amended) at concrete inputs: `I0` (narrowed value 0) is
rejected as an invalid iteration count, `T1.5` as an invalid accuracy,
`A0.4` as an invalid gain, each with an empty trace. -/
theorem c6_param_validation_amended_witness :
    g34 cfgStd ⟨0, 1/10, 1, false⟩ envFlat
      = ⟨.invalidIterations, [], []⟩
    ∧ g34 cfgStd ⟨5, 3/2, 1, false⟩ envFlat
      = ⟨.invalidAccuracy, [], []⟩
    ∧ g34 cfgStd ⟨5, 1/10, 2/5, false⟩ envFlat
      = ⟨.invalidAmplification, [], []⟩ :=
  ⟨(c6_param_validation_amended cfgStd ⟨0, 1/10, 1, false⟩ envFlat).1 (by decide),
   (c6_param_validation_amended cfgStd ⟨5, 3/2, 1, false⟩ envFlat).2.1 (by decide)
     (by decide),
   (c6_param_validation_amended cfgStd ⟨5, 1/10, 2/5, false⟩ envFlat).2.2.1 (by decide)
     (by decide) (by decide)⟩

end G34Align

namespace G34Align

set_option maxRecDepth 8000

attribute [local semireducible] Rat.add Rat.sub Rat.mul Rat.inv

set_option linter.unreachableTactic false
set_option linter.unusedTactic false

/-! ### C1: termination paths vs. the restoration block -/

/-- Claim C1 (code bug evidence): the claim says every termination path past
parameter validation reaches the post-run restoration (tool restore, leveling
restore, Z marked untrusted, probe stow, final Z home).  In the code, the
`err_break` paths break out of the `do/while` at line 265 before the
restoration block (lines 271-294): a run whose very first probe faults
performs none of the five restoration actions, while a converging run
performs all of them. -/
theorem c1_abort_skips_restoration :
    (g34 cfgStd pStd envFaulty).status = G34Status.abortedProbeFault
    ∧ (g34 cfgStd pStd envFaulty).trace =
        [Ev.sync, Ev.setLeveling false, Ev.toolChange 0, Ev.moveZ 8, Ev.probe 0 none]
    ∧ Ev.toolChange 1 ∉ (g34 cfgStd pStd envFaulty).trace
    ∧ Ev.setLeveling true ∉ (g34 cfgStd pStd envFaulty).trace
    ∧ Ev.setZNotHome ∉ (g34 cfgStd pStd envFaulty).trace
    ∧ Ev.stowProbe ∉ (g34 cfgStd pStd envFaulty).trace
    ∧ Ev.homeZ ∉ (g34 cfgStd pStd envFaulty).trace
    ∧ (g34 cfgStd pStd envFlat).status = G34Status.converged
    ∧ (g34 cfgStd pStd envFlat).trace.drop 19 =
        [Ev.toolChange 1, Ev.setLeveling true, Ev.setZNotHome, Ev.stowProbe, Ev.homeZ] := by
  decide

/-! ### C2: the lock-count invariant, counterexample -/

/-- Claim C2 (counterexample): the claim says the count of simultaneously
unlocked actuators is never 2 or more.  In a converging run of the code there
is a reachable instant with separate-multi-axis mode enabled and both
steppers' lock flags clear (right after `set_separate_multi_axis(true)` at
line 214, and again right after `set_all_z_lock(false)` at line 256 before
line 257 turns separate mode off). -/
theorem c2_counterexample :
    ((lockStates (initLock cfgStd) (g34 cfgStd pStd envFlat).trace).any
      (fun s => s.sep && decide (2 ≤ unlockedCount s.locks))) = true := by
  decide

/-! ### C3: the clearance-move condition, counterexample -/

/-- Claim C3 (counterexample): the claim says the clearance move is skipped
only for the very first probe point of iteration 0.  The code's condition
(line 171) is `iteration == 0 || izstepper > 0`: the very first point of
iteration 0 DOES get a clearance move, and the first-probed point of every
later iteration is the one that skips it. -/
theorem c3_counterexample :
    (((g34 cfgStd pStd envTilt).iters.getD 0 default).probes.getD 0 default).clearMove = true
    ∧ (((g34 cfgStd pStd envTilt).iters.getD 1 default).probes.getD 0 default).clearMove = false
    ∧ (clearFlags ((g34 cfgStd pStd envTilt).iters.getD 0 default).events).getD 0 false = true
    ∧ (clearFlags ((g34 cfgStd pStd envTilt).iters.getD 1 default).events).getD 0 true = false := by
  decide

/-! ### C5: first-iteration divergence, counterexample -/

/-- Claim C5 (counterexample): the claim says the `10000.0` sentinel means the
divergence check never trips on the first iteration.  It trips whenever a
first-iteration correction magnitude exceeds `10001`: with measurements `0`
and `20000` the run aborts as diverging on iteration 0, with the sentinel
still in place as `lastBefore`. -/
theorem c5_counterexample :
    (g34 cfgStd pStd envSteep).status = G34Status.abortedDiverging
    ∧ (g34 cfgStd pStd envSteep).iters.length = 1
    ∧ (((g34 cfgStd pStd envSteep).iters.getD 0 default).corrs.getD 1 default).div = true
    ∧ (((g34 cfgStd pStd envSteep).iters.getD 0 default).corrs.getD 1 default).lastBefore
        = 10000 := by
  decide

theorem any_map_id {α : Type} (l : List α) (f : α → Bool) :
    (l.map f).any id = l.any f := by
  induction l with
  | nil => rfl
  | cons a t ih => simp [ih]

theorem map_dropLast {α β : Type} (f : α → β) (l : List α) :
    l.dropLast.map f = (l.map f).dropLast := by
  induction l with
  | nil => rfl
  | cons a t ih =>
    cases t with
    | nil => rfl
    | cons b t2 =>
      simp only [List.dropLast_cons₂, List.map_cons]
      rw [ih]
      rfl

/-- Every iteration record a run produces satisfies the per-iteration facts. -/
theorem g34_iters_facts (cfg : G34Config) (p : G34Params) (env : G34Env) :
    ∀ it ∈ (g34 cfg p env).iters, IterFacts cfg p env it := by
  by_cases h1 : validIterations p
  · by_cases h2 : validAccuracy p
    · by_cases h3 : validAmplification p
      · intro it hit
        rw [(g34_run cfg p env h1 h2 h3).1] at hit
        exact (loopGo_facts cfg p env (int8cast p.iterations).toNat 0 (initSt cfg p env)).1 it
          (by simpa [theRun] using hit)
      · intro it hit
        rw [g34_invalid_amplification cfg p env h1 h2 h3] at hit
        simp at hit
    · intro it hit
      rw [g34_invalid_accuracy cfg p env h1 h2] at hit
      simp at hit
  · intro it hit
    rw [g34_invalid_iterations cfg p env h1] at hit
    simp at hit

/-! ### Claim C3 (amended): the clearance-move condition -/

/-- Claim C3 (amended): in every run, the events of each iteration show a
clearance move immediately before exactly those probes whose `clearMove` flag
is set, and that flag is set precisely when `iteration == 0 || izstepper > 0`
(line 171) — i.e. the move is performed for every probe point of iteration 0
(including the very first) and skipped exactly at the first-probed point of
every later iteration.  (The unamended claim — skipped only at the very
first point of iteration 0 — is refuted by `c3_counterexample`.) -/
theorem c3_clearance_amended (cfg : G34Config) (p : G34Params) (env : G34Env) :
    ∀ it ∈ (g34 cfg p env).iters,
      clearFlags it.events = it.probes.map (·.clearMove)
      ∧ ∀ pr ∈ it.probes,
          pr.clearMove = (decide (it.idx = 0) || decide (0 < pr.ord)) := by
  intro it hit
  have hf := g34_iters_facts cfg p env it hit
  exact ⟨hf.2.2.1, fun pr hpr => (hf.1 pr hpr).1⟩

/-- Witness for the amended C3 on a concrete two-iteration run. -/
theorem c3_clearance_amended_witness :
    clearFlags ((g34 cfgStd pStd envTilt).iters.getD 0 default).events
      = ((g34 cfgStd pStd envTilt).iters.getD 0 default).probes.map (·.clearMove)
    ∧ (((g34 cfgStd pStd envTilt).iters.getD 1 default).probes.getD 0 default).clearMove
      = (decide (((g34 cfgStd pStd envTilt).iters.getD 1 default).idx = 0)
         || decide (0 < (((g34 cfgStd pStd envTilt).iters.getD 1 default).probes.getD 0
              default).ord)) :=
  ⟨(c3_clearance_amended cfgStd pStd envTilt _ (by decide)).1,
   (c3_clearance_amended cfgStd pStd envTilt _ (by decide)).2 _ (by decide)⟩

/-! ### Claim C4: gain auto-tuning -/

/-- Claim C4: the gain actually multiplied into each corrective move is
auto-tuned to `min(lastCorrectionMagnitude[i] / magnitude, 2.0)` exactly on
iteration index 1 when the magnitude is positive, is the configured gain on
every other iteration with positive magnitude, and silently carries the
previous value over when the magnitude is zero; the `amplification` variable
is threaded through all correction steps of the whole run starting from the
configured gain. -/
theorem c4_gain_autotune (cfg : G34Config) (p : G34Params) (env : G34Env) :
    ampChain p.amplification ((g34 cfg p env).iters.flatMap (·.corrs))
    ∧ ∀ it ∈ (g34 cfg p env).iters, ∀ c ∈ it.corrs,
        c.ampUsed = (if 0 < c.mag then
          (if it.idx = 1 then min (c.lastBefore / c.mag) 2 else p.amplification)
          else c.ampBefore) := by
  constructor
  · by_cases h1 : validIterations p
    · by_cases h2 : validAccuracy p
      · by_cases h3 : validAmplification p
        · rw [(g34_run cfg p env h1 h2 h3).1]
          have := (loopGo_facts cfg p env (int8cast p.iterations).toNat 0 (initSt cfg p env)).2.2.2.1
          simpa [theRun, initSt] using this
        · rw [g34_invalid_amplification cfg p env h1 h2 h3]
          trivial
      · rw [g34_invalid_accuracy cfg p env h1 h2]
        trivial
    · rw [g34_invalid_iterations cfg p env h1]
      trivial
  · intro it hit c hc
    exact ((g34_iters_facts cfg p env it hit).2.2.2.2.2.1 c hc).1.2.2.2

/-- Witness for C4: on the tilted-bed run, iteration index 1's stepper-1
correction uses the auto-tuned gain. -/
theorem c4_gain_autotune_witness :
    (((g34 cfgStd pStd envTilt).iters.getD 1 default).corrs.getD 1 default).ampUsed
      = (if 0 < (((g34 cfgStd pStd envTilt).iters.getD 1 default).corrs.getD 1 default).mag then
          (if ((g34 cfgStd pStd envTilt).iters.getD 1 default).idx = 1 then
            min ((((g34 cfgStd pStd envTilt).iters.getD 1 default).corrs.getD 1
                default).lastBefore
              / (((g34 cfgStd pStd envTilt).iters.getD 1 default).corrs.getD 1 default).mag) 2
          else pStd.amplification)
        else (((g34 cfgStd pStd envTilt).iters.getD 1 default).corrs.getD 1
            default).ampBefore) :=
  (c4_gain_autotune cfgStd pStd envTilt).2 _ (by decide) _ (by decide)

/-! ### Claim C9: alternating probe order -/

/-- Claim C9: in every iteration that completes its probing, the steppers are
probed in ascending order on even iteration indices and in descending order
on odd ones — consecutive iterations reverse the order. -/
theorem c9_probe_order (cfg : G34Config) (p : G34Params) (env : G34Env) :
    ∀ it ∈ (g34 cfg p env).iters, it.fault = false →
      it.probes.map (·.stepper)
        = (if it.idx % 2 = 0 then List.range (zCount cfg)
           else (List.range (zCount cfg)).reverse) := by
  intro it hit hfault
  have hf := g34_iters_facts cfg p env it hit
  have h1 : it.probes.map (·.stepper)
      = it.probes.map (fun pr => orderOf (zCount cfg) it.idx pr.ord) :=
    List.map_congr_left fun pr hpr => (hf.1 pr hpr).2.1
  have h2 : it.probes.map (fun pr => orderOf (zCount cfg) it.idx pr.ord)
      = (it.probes.map (·.ord)).map (orderOf (zCount cfg) it.idx) := by
    rw [List.map_map]
    rfl
  rw [h1, h2, hf.2.1 hfault]
  rcases Nat.mod_two_eq_zero_or_one it.idx with hk | hk
  · rw [if_pos hk]
    have horder : ∀ iz ∈ List.range (zCount cfg), orderOf (zCount cfg) it.idx iz = iz := by
      intro iz _
      simp [orderOf, hk]
    rw [List.map_congr_left horder]
    simp
  · rw [if_neg (by omega)]
    cases hc : cfg.triple
    · rw [show zCount cfg = 2 from by simp [zCount, hc],
        show List.range 2 = [0, 1] from rfl]
      simp [orderOf, hk]
    · rw [show zCount cfg = 3 from by simp [zCount, hc],
        show List.range 3 = [0, 1, 2] from rfl]
      simp [orderOf, hk]

/-- Witness for C9: the tilted-bed run probes `[0, 1]` on iteration 0 and
`[1, 0]` on iteration 1. -/
theorem c9_probe_order_witness :
    ((g34 cfgStd pStd envTilt).iters.getD 0 default).probes.map (·.stepper)
      = (if ((g34 cfgStd pStd envTilt).iters.getD 0 default).idx % 2 = 0 then
          List.range (zCount cfgStd) else (List.range (zCount cfgStd)).reverse)
    ∧ ((g34 cfgStd pStd envTilt).iters.getD 1 default).probes.map (·.stepper)
      = (if ((g34 cfgStd pStd envTilt).iters.getD 1 default).idx % 2 = 0 then
          List.range (zCount cfgStd) else (List.range (zCount cfgStd)).reverse) :=
  ⟨c9_probe_order cfgStd pStd envTilt _ (by decide) (by decide),
   c9_probe_order cfgStd pStd envTilt _ (by decide) (by decide)⟩


/-- Membership in a run's iteration list certifies the parameters were valid. -/
theorem g34_valid_of_mem (cfg : G34Config) (p : G34Params) (env : G34Env) (it : IterRec)
    (hit : it ∈ (g34 cfg p env).iters) :
    validIterations p ∧ validAccuracy p ∧ validAmplification p := by
  by_cases h1 : validIterations p
  · by_cases h2 : validAccuracy p
    · by_cases h3 : validAmplification p
      · exact ⟨h1, h2, h3⟩
      · rw [g34_invalid_amplification cfg p env h1 h2 h3] at hit
        simp at hit
    · rw [g34_invalid_accuracy cfg p env h1 h2] at hit
      simp at hit
  · rw [g34_invalid_iterations cfg p env h1] at hit
    simp at hit

/-- A stepped-bed run whose tilt jumps from 1 to 3 between iterations 0 and
1, tripping the divergence check at iteration 1, stepper 1. -/
def envSlope : G34Env :=
  ⟨fun k z => some (if z = 0 then 0 else if k = 0 then 1 else 3),
   fun _ _ => 1, true, true, 1, 10⟩

/-! ### Claim C5 (amended): the divergence check -/

/-- Claim C5 (amended): each correction step's divergence flag is exactly
`lastCorrectionMagnitude[i] < magnitude - 1.0`; a flagged step makes the run
end as `AbortedDiverging` with no corrective move for the flagged stepper and
no further iterations (the diverging iteration is the last, its corrective
moves number one fewer than its correction steps); the sentinel seeds every
first-iteration check with `10000.0`, so iteration 0 cannot trip the check
as long as every first-iteration magnitude is at most `10001` (the unamended
"never trips on the first iteration" is refuted by `c5_counterexample`). -/
theorem c5_divergence_amended (cfg : G34Config) (p : G34Params) (env : G34Env) :
    (∀ it ∈ (g34 cfg p env).iters, ∀ c ∈ it.corrs,
        c.div = decide (c.lastBefore < c.mag - 1))
    ∧ (∀ it ∈ (g34 cfg p env).iters, it.diverged = true →
        (g34 cfg p env).status = .abortedDiverging
        ∧ it.corrs.map (·.div) = List.replicate (it.corrs.length - 1) false ++ [true]
        ∧ sepMoveCount false it.events = it.corrs.length - 1
        ∧ (∀ it2 ∈ (g34 cfg p env).iters.dropLast, it2.diverged = false))
    ∧ (∀ it ∈ (g34 cfg p env).iters, it.diverged = (it.corrs.any (·.div)))
    ∧ (∀ it ∈ (g34 cfg p env).iters, it.idx = 0 →
        (∀ c ∈ it.corrs, c.lastBefore = 10000)
        ∧ ((∀ c ∈ it.corrs, c.mag ≤ 10001) → it.diverged = false)) := by
  have hany : ∀ it ∈ (g34 cfg p env).iters, it.diverged = (it.corrs.any (·.div)) := by
    intro it hit
    have hf := g34_iters_facts cfg p env it hit
    cases hd : it.diverged
    · by_cases hfault : it.fault = true
      · rw [(hf.2.2.2.2.1 hfault).1]
        rfl
      · rw [Bool.not_eq_true] at hfault
        obtain ⟨_, hpat, _, _⟩ := hf.2.2.2.2.2.2.1 hd hfault
        rw [← any_map_id it.corrs (·.div), hpat]
        simp
    · obtain ⟨hpat, _⟩ := hf.2.2.2.2.2.2.2 hd
      rw [← any_map_id it.corrs (·.div), hpat]
      simp
  refine ⟨?_, ?_, hany, ?_⟩
  · intro it hit c hc
    exact ((g34_iters_facts cfg p env it hit).2.2.2.2.2.1 c hc).1.2.2.1
  · intro it hit hd
    have hf := g34_iters_facts cfg p env it hit
    obtain ⟨hpat, hcnt⟩ := hf.2.2.2.2.2.2.2 hd
    obtain ⟨h1, h2, h3⟩ := g34_valid_of_mem cfg p env it hit
    obtain ⟨hIters, hStatus, _⟩ := g34_run cfg p env h1 h2 h3
    obtain ⟨LF1, LF2, LF3, LF4, LF5, LFfault, LFdiv, LFconv, LFexh⟩ :=
      loopGo_facts cfg p env (int8cast p.iterations).toNat 0 (initSt cfg p env)
    simp only [theRun] at hIters hStatus
    rw [hIters] at hit ⊢
    rcases hex : (loopGo cfg p env 0 (int8cast p.iterations).toNat (initSt cfg p env)).2.2
    case fault =>
      exfalso
      have hmem := List.mem_map_of_mem (fun x : IterRec => x.diverged) hit
      rw [(LFfault hex).2] at hmem
      simp only at hmem
      have := List.eq_of_mem_replicate hmem
      rw [hd] at this
      simp at this
    case diverged =>
      rw [hex] at hStatus
      simp only at hStatus
      refine ⟨hStatus, hpat, hcnt, ?_⟩
      intro it2 hit2
      have hmem := List.mem_map_of_mem (fun x : IterRec => x.diverged)
        (show it2 ∈ (loopGo cfg p env 0 (int8cast p.iterations).toNat (initSt cfg p env)).1.dropLast
          from hit2)
      rw [map_dropLast, (LFdiv hex).2, List.dropLast_concat] at hmem
      simp only at hmem
      exact List.eq_of_mem_replicate hmem
    case converged =>
      exfalso
      have hmem := List.mem_map_of_mem (fun x : IterRec => x.diverged) hit
      rw [(LFconv hex).2.1] at hmem
      simp only at hmem
      have := List.eq_of_mem_replicate hmem
      rw [hd] at this
      simp at this
    case exhausted =>
      exfalso
      have hmem := List.mem_map_of_mem (fun x : IterRec => x.diverged) hit
      rw [(LFexh hex).2.2.1] at hmem
      simp only at hmem
      have := List.eq_of_mem_replicate hmem
      rw [hd] at this
      simp at this
  · intro it hit hidx
    have hf := g34_iters_facts cfg p env it hit
    obtain ⟨h1, h2, h3⟩ := g34_valid_of_mem cfg p env it hit
    obtain ⟨hIters, _, _⟩ := g34_run cfg p env h1 h2 h3
    obtain ⟨LF1, LF2, LF3, LF4, LF5, _, _, _, _⟩ :=
      loopGo_facts cfg p env (int8cast p.iterations).toNat 0 (initSt cfg p env)
    simp only [theRun] at hIters
    rw [hIters] at hit
    have hlast : ∀ c ∈ it.corrs, c.lastBefore = 10000 := by
      intro c hc
      have := LF5 it hit hidx c hc
      rw [this]
      simp only [initSt]
      exact getD_replicate _ _ _ _ ((hf.2.2.2.2.2.1 c hc).2)
    refine ⟨hlast, ?_⟩
    intro hmag
    cases hd : it.diverged
    · rfl
    · exfalso
      have := hany it (by rw [hIters]; exact hit)
      rw [hd] at this
      obtain ⟨c, hc, hcdiv⟩ := List.any_eq_true.mp this.symm
      have hform := ((g34_iters_facts cfg p env it
        (by rw [hIters]; exact hit)).2.2.2.2.2.1 c hc).1.2.2.1
      rw [hcdiv] at hform
      have hlt := of_decide_eq_true hform.symm
      rw [hlast c hc] at hlt
      have := hmag c hc
      linarith

/-- Witness for the amended C5: the stepped-bed run diverges at iteration 1
and stops there. -/
theorem c5_divergence_amended_witness :
    (g34 cfgStd pStd envSlope).status = G34Status.abortedDiverging
    ∧ ((g34 cfgStd pStd envSlope).iters.getD 1 default).corrs.map (·.div)
        = List.replicate
            (((g34 cfgStd pStd envSlope).iters.getD 1 default).corrs.length - 1) false
          ++ [true]
    ∧ sepMoveCount false ((g34 cfgStd pStd envSlope).iters.getD 1 default).events
        = ((g34 cfgStd pStd envSlope).iters.getD 1 default).corrs.length - 1
    ∧ (∀ it2 ∈ (g34 cfgStd pStd envSlope).iters.dropLast, it2.diverged = false) :=
  (c5_divergence_amended cfgStd pStd envSlope).2.1 _ (by decide) (by decide)

/-! ### Claim C7: probe accounting and fault aborts -/

/-- Claim C7: every iteration that completes probing took exactly
`Z_STEPPER_COUNT` measurements (one per stepper), and an iteration with a
probe fault computed no corrections, never entered the isolated-actuation
phase, and ended the whole run with `AbortedProbeFault` — a faulted
iteration is always the last one. -/
theorem c7_probe_accounting (cfg : G34Config) (p : G34Params) (env : G34Env) :
    (∀ it ∈ (g34 cfg p env).iters, it.fault = false →
        probeCount it.events = zCount cfg ∧ it.probes.length = zCount cfg)
    ∧ (∀ it ∈ (g34 cfg p env).iters, it.fault = true →
        it.corrs = [] ∧ Ev.setSep true ∉ it.events
        ∧ (g34 cfg p env).status = .abortedProbeFault)
    ∧ (∀ it2 ∈ (g34 cfg p env).iters.dropLast, it2.fault = false) := by
  refine ⟨?_, ?_, ?_⟩
  · intro it hit hfault
    have hf := g34_iters_facts cfg p env it hit
    have hlen := congrArg List.length (hf.2.1 hfault)
    simp only [List.length_map, List.length_range] at hlen
    exact ⟨by rw [hf.2.2.2.1, hlen], hlen⟩
  · intro it hit hfault
    have hf := g34_iters_facts cfg p env it hit
    obtain ⟨hcorrs, _, hnosep⟩ := hf.2.2.2.2.1 hfault
    obtain ⟨h1, h2, h3⟩ := g34_valid_of_mem cfg p env it hit
    obtain ⟨hIters, hStatus, _⟩ := g34_run cfg p env h1 h2 h3
    obtain ⟨LF1, LF2, LF3, LF4, LF5, LFfault, LFdiv, LFconv, LFexh⟩ :=
      loopGo_facts cfg p env (int8cast p.iterations).toNat 0 (initSt cfg p env)
    simp only [theRun] at hIters hStatus
    rw [hIters] at hit
    refine ⟨hcorrs, hnosep, ?_⟩
    rcases hex : (loopGo cfg p env 0 (int8cast p.iterations).toNat (initSt cfg p env)).2.2
    case fault =>
      rw [hex] at hStatus
      simp only at hStatus
      exact hStatus
    case diverged =>
      exfalso
      have hmem := List.mem_map_of_mem (fun x : IterRec => x.fault) hit
      rw [(LFdiv hex).1] at hmem
      simp only at hmem
      have := List.eq_of_mem_replicate hmem
      rw [hfault] at this
      simp at this
    case converged =>
      exfalso
      have hmem := List.mem_map_of_mem (fun x : IterRec => x.fault) hit
      rw [(LFconv hex).1] at hmem
      simp only at hmem
      have := List.eq_of_mem_replicate hmem
      rw [hfault] at this
      simp at this
    case exhausted =>
      exfalso
      have hmem := List.mem_map_of_mem (fun x : IterRec => x.fault) hit
      rw [(LFexh hex).2.1] at hmem
      simp only at hmem
      have := List.eq_of_mem_replicate hmem
      rw [hfault] at this
      simp at this
  · intro it2 hit2
    by_cases h1 : validIterations p
    · by_cases h2 : validAccuracy p
      · by_cases h3 : validAmplification p
        · obtain ⟨hIters, _, _⟩ := g34_run cfg p env h1 h2 h3
          obtain ⟨LF1, LF2, LF3, LF4, LF5, LFfault, LFdiv, LFconv, LFexh⟩ :=
            loopGo_facts cfg p env (int8cast p.iterations).toNat 0 (initSt cfg p env)
          simp only [theRun] at hIters
          rw [hIters] at hit2
          rcases hex : (loopGo cfg p env 0 (int8cast p.iterations).toNat (initSt cfg p env)).2.2
          · have hmem := List.mem_map_of_mem (fun x : IterRec => x.fault) hit2
            rw [map_dropLast, (LFfault hex).1, List.dropLast_concat] at hmem
            simp only at hmem
            exact List.eq_of_mem_replicate hmem
          · have hmem := List.mem_map_of_mem (fun x : IterRec => x.fault)
              (List.mem_of_mem_dropLast hit2)
            rw [(LFdiv hex).1] at hmem
            simp only at hmem
            exact List.eq_of_mem_replicate hmem
          · have hmem := List.mem_map_of_mem (fun x : IterRec => x.fault)
              (List.mem_of_mem_dropLast hit2)
            rw [(LFconv hex).1] at hmem
            simp only at hmem
            exact List.eq_of_mem_replicate hmem
          · have hmem := List.mem_map_of_mem (fun x : IterRec => x.fault)
              (List.mem_of_mem_dropLast hit2)
            rw [(LFexh hex).2.1] at hmem
            simp only at hmem
            exact List.eq_of_mem_replicate hmem
        · rw [g34_invalid_amplification cfg p env h1 h2 h3] at hit2
          simp at hit2
      · rw [g34_invalid_accuracy cfg p env h1 h2] at hit2
        simp at hit2
    · rw [g34_invalid_iterations cfg p env h1] at hit2
      simp at hit2

/-- Witness for C7 on concrete runs: a completed iteration of the flat-bed
run has exactly 2 probe events; the faulting run's iteration computed no
corrections, never entered separate mode, and ended as `AbortedProbeFault`. -/
theorem c7_probe_accounting_witness :
    (probeCount ((g34 cfgStd pStd envFlat).iters.getD 0 default).events = zCount cfgStd
      ∧ ((g34 cfgStd pStd envFlat).iters.getD 0 default).probes.length = zCount cfgStd)
    ∧ (((g34 cfgStd pStd envFaulty).iters.getD 0 default).corrs = []
      ∧ Ev.setSep true ∉ ((g34 cfgStd pStd envFaulty).iters.getD 0 default).events
      ∧ (g34 cfgStd pStd envFaulty).status = .abortedProbeFault) :=
  ⟨(c7_probe_accounting cfgStd pStd envFlat).1 _ (by decide) (by decide),
   (c7_probe_accounting cfgStd pStd envFaulty).2.1 _ (by decide) (by decide)⟩


/-! ### Claim C8: convergence and exhaustion -/

/-- Claim C8: in a run that ends without fault or divergence, every iteration
ran a full correction pass, its success flag is exactly "every correction
magnitude is within the accuracy target", a converging run stops at its first
successful iteration even if iterations remain, and otherwise exactly
`iterationLimit` iterations execute and the status is `IterationsExhausted`. -/
theorem c8_convergence_exhaustion (cfg : G34Config) (p : G34Params) (env : G34Env)
    (h : (g34 cfg p env).status = .converged
      ∨ (g34 cfg p env).status = .iterationsExhausted) :
    (∀ it ∈ (g34 cfg p env).iters, it.fault = false ∧ it.diverged = false
      ∧ it.success = (it.corrs.all fun c => decide (c.mag ≤ p.accuracy))
      ∧ it.corrs.map (·.stepper) = List.range (zCount cfg))
    ∧ ((g34 cfg p env).status = .converged →
        (g34 cfg p env).iters ≠ []
        ∧ (g34 cfg p env).iters.map (·.success)
            = List.replicate ((g34 cfg p env).iters.length - 1) false ++ [true]
        ∧ (g34 cfg p env).iters.length ≤ (int8cast p.iterations).toNat)
    ∧ ((g34 cfg p env).status = .iterationsExhausted →
        (g34 cfg p env).iters.length = (int8cast p.iterations).toNat
        ∧ ∀ it ∈ (g34 cfg p env).iters, it.success = false)
    ∧ ((∃ it ∈ (g34 cfg p env).iters, it.success = true) →
        (g34 cfg p env).status = .converged) := by
  by_cases h1 : validIterations p
  · by_cases h2 : validAccuracy p
    · by_cases h3 : validAmplification p
      · obtain ⟨hIters, hStatus, _⟩ := g34_run cfg p env h1 h2 h3
        obtain ⟨LF1, LF2, LF3, LF4, LF5, LFfault, LFdiv, LFconv, LFexh⟩ :=
          loopGo_facts cfg p env (int8cast p.iterations).toNat 0 (initSt cfg p env)
        simp only [theRun] at hIters hStatus
        rcases hex : (loopGo cfg p env 0 (int8cast p.iterations).toNat (initSt cfg p env)).2.2
        · rw [hex] at hStatus
          simp only at hStatus
          rw [hStatus] at h
          simp at h
        · rw [hex] at hStatus
          simp only at hStatus
          rw [hStatus] at h
          simp at h
        · rw [hex] at hStatus
          simp only at hStatus
          obtain ⟨hcf, hcd, hcs⟩ := LFconv hex
          refine ⟨?_, ?_, ?_, ?_⟩
          · intro it hit
            rw [hIters] at hit
            have hff : it.fault = false := by
              have hmem := List.mem_map_of_mem (fun x : IterRec => x.fault) hit
              rw [hcf] at hmem
              simp only at hmem
              exact List.eq_of_mem_replicate hmem
            have hdf : it.diverged = false := by
              have hmem := List.mem_map_of_mem (fun x : IterRec => x.diverged) hit
              rw [hcd] at hmem
              simp only at hmem
              exact List.eq_of_mem_replicate hmem
            obtain ⟨hstep, _, hsucc, _⟩ := (LF1 it hit).2.2.2.2.2.2.1 hdf hff
            exact ⟨hff, hdf, hsucc, hstep⟩
          · intro _
            have hlen1 := congrArg List.length hcs
            simp only [List.length_map, List.length_append, List.length_replicate,
              List.length_cons, List.length_nil] at hlen1
            rw [hIters]
            refine ⟨?_, hcs, LF3⟩
            intro hnil
            rw [hnil] at hlen1
            simp at hlen1
          · intro hexh
            rw [hStatus] at hexh
            simp at hexh
          · intro _
            exact hStatus
        · rw [hex] at hStatus
          simp only at hStatus
          obtain ⟨hlen, hef, hed, hes⟩ := LFexh hex
          refine ⟨?_, ?_, ?_, ?_⟩
          · intro it hit
            rw [hIters] at hit
            have hff : it.fault = false := by
              have hmem := List.mem_map_of_mem (fun x : IterRec => x.fault) hit
              rw [hef] at hmem
              simp only at hmem
              exact List.eq_of_mem_replicate hmem
            have hdf : it.diverged = false := by
              have hmem := List.mem_map_of_mem (fun x : IterRec => x.diverged) hit
              rw [hed] at hmem
              simp only at hmem
              exact List.eq_of_mem_replicate hmem
            obtain ⟨hstep, _, hsucc, _⟩ := (LF1 it hit).2.2.2.2.2.2.1 hdf hff
            exact ⟨hff, hdf, hsucc, hstep⟩
          · intro hconv
            rw [hStatus] at hconv
            simp at hconv
          · intro _
            rw [hIters]
            refine ⟨hlen, ?_⟩
            intro it hit
            have hmem := List.mem_map_of_mem (fun x : IterRec => x.success) hit
            rw [hes] at hmem
            simp only at hmem
            exact List.eq_of_mem_replicate hmem
          · intro ⟨it, hit, hsucc⟩
            exfalso
            rw [hIters] at hit
            have hmem := List.mem_map_of_mem (fun x : IterRec => x.success) hit
            rw [hes] at hmem
            simp only at hmem
            have := List.eq_of_mem_replicate hmem
            rw [hsucc] at this
            simp at this
      · rw [g34_invalid_amplification cfg p env h1 h2 h3] at h
        simp at h
    · rw [g34_invalid_accuracy cfg p env h1 h2] at h
      simp at h
  · rw [g34_invalid_iterations cfg p env h1] at h
    simp at h

/-- Witness for C8: the flat-bed run converges on its first iteration; the
tilted-bed run exhausts all 5 iterations. -/
theorem c8_convergence_exhaustion_witness :
    ((g34 cfgStd pStd envFlat).iters.map (·.success)
      = List.replicate ((g34 cfgStd pStd envFlat).iters.length - 1) false ++ [true])
    ∧ ((g34 cfgStd pStd envTilt).iters.length = (int8cast pStd.iterations).toNat
      ∧ ∀ it ∈ (g34 cfgStd pStd envTilt).iters, it.success = false) :=
  ⟨((c8_convergence_exhaustion cfgStd pStd envFlat (Or.inl (by decide))).2.1
      (by decide)).2.1,
   (c8_convergence_exhaustion cfgStd pStd envTilt (Or.inr (by decide))).2.2.1
      (by decide)⟩

/-! ### Claim C10: the M422 probe-position setter -/

/-- Claim C10: setting a valid stepper's probe position to in-bounds
coordinates succeeds and rereading yields exactly those coordinates; an
out-of-bounds X or Y makes the command fail with the store unchanged; and the
stored pair survives every later call that does not store to that stepper —
where "the stepper a call stores to" is the `int8_t`-narrowed
`int8cast (S - 1)` of line 305, so a wrapping raw `S` word (e.g. `S257` for
stepper 0) counts as a set call for the stepper it resolves to. -/
theorem c10_m422_roundtrip (cfg : G34Config) (b : MachineBounds)
    (store : List (ℚ × ℚ)) (i : Nat) (x y : ℚ) (hi : i < zCount cfg)
    (hlen : store.length = zCount cfg)
    (hx : b.xMin ≤ x ∧ x ≤ b.xMax) (hy : b.yMin ≤ y ∧ y ≤ b.yMax) :
    (m422 cfg b store ((i : Int) + 1) (some x) (some y)).2 = true
    ∧ (m422 cfg b store ((i : Int) + 1) (some x) (some y)).1.getD i (0, 0) = (x, y)
    ∧ (∀ x2 y2 : ℚ, (¬(b.xMin ≤ x2 ∧ x2 ≤ b.xMax) ∨ ¬(b.yMin ≤ y2 ∧ y2 ≤ b.yMax)) →
        m422 cfg b store ((i : Int) + 1) (some x2) (some y2) = (store, false))
    ∧ (∀ (sA : Int) (xA yA : Option ℚ),
        ((m422 cfg b (m422 cfg b store ((i : Int) + 1) (some x) (some y)).1 sA xA yA).2
            = false
          ∨ int8cast (sA - 1) ≠ (i : Int)) →
        (m422 cfg b (m422 cfg b store ((i : Int) + 1) (some x) (some y)).1 sA xA
            yA).1.getD i (0, 0) = (x, y)) := by
  have hi3 : i < 3 := lt_of_lt_of_le hi (by unfold zCount; split <;> omega)
  have hci : int8cast ((i : Int) + 1 - 1) = (i : Int) := by
    unfold int8cast; omega
  have hz : (0 : Int) ≤ int8cast ((i : Int) + 1 - 1)
      ∧ int8cast ((i : Int) + 1 - 1) ≤ (zCount cfg : Int) - 1 := by
    rw [hci]; omega
  have htn : (int8cast ((i : Int) + 1 - 1)).toNat = i := by rw [hci]; omega
  have hset : m422 cfg b store ((i : Int) + 1) (some x) (some y)
      = (store.set i (x, y), true) := by
    rw [m422]
    rw [if_neg (not_not_intro hz)]
    simp only [htn, Option.getD_some]
    rw [if_neg (not_not_intro hx), if_neg (not_not_intro hy)]
  have hget : (store.set i (x, y)).getD i (0, 0) = (x, y) :=
    getD_set_self _ _ _ _ (hlen ▸ hi)
  refine ⟨by rw [hset], by rw [hset]; exact hget, ?_, ?_⟩
  · intro x2 y2 hbad
    rw [m422]
    rw [if_neg (not_not_intro hz)]
    simp only [htn, Option.getD_some]
    rcases hbad with hbad | hbad
    · rw [if_pos hbad]
    · by_cases hx2 : b.xMin ≤ x2 ∧ x2 ≤ b.xMax
      · rw [if_neg (not_not_intro hx2), if_pos hbad]
      · rw [if_pos hx2]
  · intro sA xA yA hcase
    rw [hset] at hcase ⊢
    by_cases hzs : (0 : Int) ≤ int8cast (sA - 1)
        ∧ int8cast (sA - 1) ≤ (zCount cfg : Int) - 1
    · rw [m422, if_neg (not_not_intro hzs)] at hcase ⊢
      by_cases hxs : b.xMin ≤ xA.getD
            ((store.set i (x, y)).getD (int8cast (sA - 1)).toNat (0, 0)).1
          ∧ xA.getD ((store.set i (x, y)).getD (int8cast (sA - 1)).toNat (0, 0)).1
            ≤ b.xMax
      · rw [if_neg (not_not_intro hxs)] at hcase ⊢
        by_cases hys : b.yMin ≤ yA.getD
              ((store.set i (x, y)).getD (int8cast (sA - 1)).toNat (0, 0)).2
            ∧ yA.getD ((store.set i (x, y)).getD (int8cast (sA - 1)).toNat (0, 0)).2
              ≤ b.yMax
        · rw [if_neg (not_not_intro hys)] at hcase ⊢
          have hne : int8cast (sA - 1) ≠ (i : Int) := by
            rcases hcase with hc | hc
            · simp at hc
            · exact hc
          have hnei : (int8cast (sA - 1)).toNat ≠ i := by
            unfold int8cast at hzs hne ⊢
            omega
          dsimp only
          rw [getD_set_ne _ _ _ _ _ hnei]
          exact hget
        · rw [if_pos hys]
          exact hget
      · rw [if_pos hxs]
        exact hget
    · rw [m422, if_pos hzs]
      exact hget

/-- Witness for C10: on a two-stepper store, `M422 S2 X50 Y60` inside a
0..200 bed succeeds, stepper 2 rereads as (50, 60), an out-of-range X fails
without touching the store, a later failing call leaves (50, 60) intact, and
the model honours the `int8_t` wrap: `S258` resolves to stepper 2
(`int8cast 257 = 1`) and overwrites it. -/
theorem c10_m422_roundtrip_witness :
    ((1 : Nat) < zCount cfgStd ∧ [((10 : ℚ), (10 : ℚ)), (20, 20)].length = zCount cfgStd
      ∧ ((0 : ℚ) ≤ 50 ∧ (50 : ℚ) ≤ 200) ∧ ((0 : ℚ) ≤ 60 ∧ (60 : ℚ) ≤ 200))
    ∧ (m422 cfgStd ⟨0, 200, 0, 200⟩ [((10 : ℚ), (10 : ℚ)), (20, 20)]
        (((1 : Nat) : Int) + 1) (some 50) (some 60)).2 = true
    ∧ (m422 cfgStd ⟨0, 200, 0, 200⟩ [((10 : ℚ), (10 : ℚ)), (20, 20)]
        (((1 : Nat) : Int) + 1) (some 50) (some 60)).1.getD 1 (0, 0) = (50, 60)
    ∧ m422 cfgStd ⟨0, 200, 0, 200⟩ [((10 : ℚ), (10 : ℚ)), (20, 20)]
        (((1 : Nat) : Int) + 1) (some 300) (some 60)
        = ([((10 : ℚ), (10 : ℚ)), (20, 20)], false)
    ∧ (m422 cfgStd ⟨0, 200, 0, 200⟩
        (m422 cfgStd ⟨0, 200, 0, 200⟩ [((10 : ℚ), (10 : ℚ)), (20, 20)]
          (((1 : Nat) : Int) + 1) (some 50) (some 60)).1 9 (some 70) (some 70)).1.getD
        1 (0, 0) = (50, 60)
    ∧ m422 cfgStd ⟨0, 200, 0, 200⟩ [((10 : ℚ), (10 : ℚ)), (20, 20)] 258
        (some 70) (some 80) = ([((10 : ℚ), (10 : ℚ)), (70, 80)], true) := by
  have h := c10_m422_roundtrip cfgStd ⟨0, 200, 0, 200⟩
    [((10 : ℚ), (10 : ℚ)), (20, 20)] 1 50 60 (by decide) (by decide)
    (by constructor <;> decide) (by constructor <;> decide)
  exact ⟨⟨by decide, by decide, ⟨by decide, by decide⟩, ⟨by decide, by decide⟩⟩,
    h.1, h.2.1,
    h.2.2.1 300 60 (Or.inl (by intro hc; exact absurd hc.2 (by decide))),
    h.2.2.2 9 (some 70) (some 70) (Or.inr (by decide)),
    by decide⟩

end G34Align
